import Mathlib

/-!
# QIYANASSpotifyTransfer: backup and restore of playlists

A shallow embedding of `main.go`: the deduplicator `removeDuplicateTracks`,
the paginated fetcher `getPlaylistTracks`, the body of the `/callback`
handler that assembles the backup, and the body of the `/restore` handler
that re-creates the playlists in batches of 100.

Modelling conventions.

* A Go `string` is an immutable sequence of bytes: `GoString`.  `len`, the
  slice expression `s[14:]`, comparison with `""` and the use as a map key
  all work on bytes.
* The remote service is a deterministic function of the calls made so far
  (`Remote`); quantifying over all of them covers every pattern of
  answers and failures.  Each call is appended to the history.
* A run-time panic (index out of range, nil dereference, slice bounds out of
  range) ends the handler: `net/http` recovers it, nothing more of the
  handler runs and no response is written.
* Go `int` is 64 bits wide.  The counters of the two loops never exceed the
  length of a slice held in memory (`requested_offset_le_accumulated` for the
  fetcher; `i < len(trackIDs)` in the batch loop), so they are unbounded
  integers here.
* A finite `float64` is the rational number it denotes, and every `float64`
  operation is the exact operation followed by `float64Round` (round to
  nearest, ties to even, 53-bit significand).
* `getPlaylistTracks` loops until a page is short, so it takes a bound on its
  iterations; the statements about what it returns hold for every bound that
  is large enough.
-/

namespace SpotifyTransfer

/-! ## Data model -/

/-- A Go string: a sequence of bytes. -/
abbrev GoString := List UInt8

/-- The bytes of an ASCII literal. -/
def ascii (s : String) : GoString := s.toList.map (fun c => UInt8.ofNat c.toNat)

/-- A Go `error` value (its message). -/
abbrev GoError := String

/-- Source: `type TrackBackup struct`. -/
structure TrackBackup where
  Name : GoString
  Artist : GoString
  Album : GoString
  URI : GoString
deriving DecidableEq, Repr

/-- Source: `type PlaylistBackup struct`. -/
structure PlaylistBackup where
  Name : GoString
  Tracks : List TrackBackup
deriving DecidableEq, Repr

/-! The types of `github.com/zmb3/spotify/v2` that the program reads, with the
fields it reads. -/

/-- Library type `spotify.SimpleArtist`. -/
structure SimpleArtist where
  Name : GoString
deriving DecidableEq, Repr

/-- Library type `spotify.SimpleAlbum`. -/
structure SimpleAlbum where
  Name : GoString
deriving DecidableEq, Repr

/-- Library type `spotify.FullTrack`. -/
structure FullTrack where
  Name : GoString
  Artists : List SimpleArtist
  Album : SimpleAlbum
  URI : GoString
deriving DecidableEq, Repr

/-- Library type `spotify.PlaylistItemTrack`; `Track` is a pointer
(`*FullTrack`), nil for an episode or an unavailable track. -/
structure PlaylistItemTrack where
  Track : Option FullTrack
deriving DecidableEq, Repr

/-- Library type `spotify.PlaylistItem`. -/
structure PlaylistItem where
  Track : PlaylistItemTrack
deriving DecidableEq, Repr

/-- Library type `spotify.SimplePlaylist`. -/
structure SimplePlaylist where
  ID : GoString
  Name : GoString
deriving DecidableEq, Repr

/-! ## Deduplicator -/

/-- The `for _, track := range tracks` loop of `removeDuplicateTracks`;
`seen` is the `map[string]bool` (absent keys read as `false`). -/
def removeDuplicateTracksLoop :
    List TrackBackup → (GoString → Bool) → List TrackBackup → List TrackBackup
  | [], _, result => result
  | track :: rest, seen, result =>
    if !seen track.URI then
      removeDuplicateTracksLoop rest
        (fun k => if k = track.URI then true else seen k) (result ++ [track])
    else
      removeDuplicateTracksLoop rest seen result

/-- Source: `func removeDuplicateTracks(tracks []TrackBackup) []TrackBackup`. -/
def removeDuplicateTracks (tracks : List TrackBackup) : List TrackBackup :=
  removeDuplicateTracksLoop tracks (fun _ => false) []

/-- The claim's words: the records of `tracks` whose URI does not occur at an
earlier position of `tracks`, in their order. -/
def firstOccurrences (tracks : List TrackBackup) : List TrackBackup :=
  (tracks.enum.filter
    (fun p => (tracks.take p.1).all (fun u => decide (u.URI ≠ p.2.URI)))).map Prod.snd

/-- The records of `rest` whose URI is neither in `pre` nor earlier in `rest`. -/
def keepNew : List GoString → List TrackBackup → List TrackBackup
  | _, [] => []
  | pre, t :: rest =>
    if t.URI ∈ pre then keepNew (pre ++ [t.URI]) rest
    else t :: keepNew (pre ++ [t.URI]) rest

/-! ## The remote service -/

/-- A call on the API client, with the arguments the program passes. -/
inductive Call where
  | getPlaylistItems (playlistID : GoString) (limit offset : Int)
  | createPlaylistForUser (userID playlistName description : GoString)
      (isPublic collaborative : Bool)
  | addTracksToPlaylist (playlistID : GoString) (trackIDs : List GoString)
deriving DecidableEq, Repr

/-- The API client as the program sees it.  Every method gets the calls made
before it, so its answer may depend on everything that happened so far; an
`error` is a non-nil Go `err`.  `CreatePlaylistForUser` answers with the ID of
the new playlist, `AddTracksToPlaylist` with the snapshot ID. -/
structure Remote where
  GetPlaylistItems : List Call → GoString → Int → Int → Except GoError (List PlaylistItem)
  CreatePlaylistForUser :
    List Call → GoString → GoString → GoString → Bool → Bool → Except GoError GoString
  AddTracksToPlaylist : List Call → GoString → List GoString → Except GoError GoString

/-! ## Paginated fetcher -/

/-- What `getPlaylistTracks` returns, `(tracks, err)`, and the calls made up
to its return. -/
structure Fetched where
  tracks : List PlaylistItem
  err : Option GoError
  calls : List Call
deriving DecidableEq, Repr

/-- The `for` loop of `getPlaylistTracks`.  The loop has no bound of its own,
so the model takes the number of iterations it may run; `none` means that the
number was used up before the loop ended. -/
def getPlaylistTracksLoop (client : Remote) (playlistID : GoString) (limit : Int) :
    Nat → List PlaylistItem → Int → List Call → Option Fetched
  | 0, _, _, _ => none
  | fuel + 1, tracks, offset, calls =>
    match client.GetPlaylistItems calls playlistID limit offset with
    | .error err =>
      some ⟨[], some err, calls ++ [Call.getPlaylistItems playlistID limit offset]⟩
    | .ok tracksPage =>
      if (tracksPage.length : Int) < limit then
        some ⟨tracks ++ tracksPage, none,
          calls ++ [Call.getPlaylistItems playlistID limit offset]⟩
      else
        getPlaylistTracksLoop client playlistID limit fuel (tracks ++ tracksPage)
          (offset + limit) (calls ++ [Call.getPlaylistItems playlistID limit offset])

/-- Source: `func getPlaylistTracks(client, ctx, playlistID)`, with
`limit := 100` and `offset := 0`. -/
def getPlaylistTracks (client : Remote) (fuel : Nat) (playlistID : GoString)
    (calls : List Call) : Option Fetched :=
  getPlaylistTracksLoop client playlistID 100 fuel [] 0 calls

/-! ## Backup: the `/callback` handler from `backupData = make(...)` on -/

/-- How a handler run ended. -/
inductive Status where
  | completed
  | panicked
  | outOfFuel
deriving DecidableEq, Repr

/-- What one pass of the body of `for _, track := range tracks` does. -/
inductive Normalized where
  | skip
  | record (trackBackup : TrackBackup)
  | panic
deriving DecidableEq, Repr

/-- The body of `for _, track := range tracks` in the `/callback` handler:
`continue` on an empty name, else build the `TrackBackup`.
`track.Track.Track` is a pointer and `Artists[0]` an index expression: a nil
pointer or an empty `Artists` slice panics. -/
def normalizeItem (track : PlaylistItem) : Normalized :=
  match track.Track.Track with
  | none => .panic
  | some fullTrack =>
    if fullTrack.Name = [] then .skip
    else
      match fullTrack.Artists with
      | [] => .panic
      | artist :: _ =>
        .record
          { Name := fullTrack.Name
            Artist := artist.Name
            Album := fullTrack.Album.Name
            URI := fullTrack.URI }

/-- The loop `for _, track := range tracks` of the `/callback` handler, from
the tracks appended so far; `none` when an iteration panics. -/
def callbackTrackLoop : List PlaylistItem → List TrackBackup → Option (List TrackBackup)
  | [], tracks => some tracks
  | track :: rest, tracks =>
    match normalizeItem track with
    | .skip => callbackTrackLoop rest tracks
    | .record trackBackup => callbackTrackLoop rest (tracks ++ [trackBackup])
    | .panic => none

/-- The state a run of the `/callback` handler leaves: the global
`backupData`, the calls made, and how the run ended. -/
structure BackupRun where
  backupData : List PlaylistBackup
  calls : List Call
  status : Status
deriving DecidableEq, Repr

/-- The loop `for _, playlist := range playlists.Playlists` of the
`/callback` handler.  `fuel` bounds the iterations of every fetch. -/
def callbackPlaylistLoop (client : Remote) (fuel : Nat) :
    List SimplePlaylist → List PlaylistBackup → List Call → BackupRun
  | [], backupData, calls => ⟨backupData, calls, .completed⟩
  | playlist :: rest, backupData, calls =>
    match getPlaylistTracks client fuel playlist.ID calls with
    | none => ⟨backupData, calls, .outOfFuel⟩
    | some fetched =>
      match fetched.err with
      | some _ => callbackPlaylistLoop client fuel rest backupData fetched.calls
      | none =>
        match callbackTrackLoop fetched.tracks [] with
        | none => ⟨backupData, fetched.calls, .panicked⟩
        | some tracks =>
          callbackPlaylistLoop client fuel rest
            (backupData ++ [{ Name := playlist.Name, Tracks := tracks }]) fetched.calls

/-- The `/callback` handler from `backupData = make([]PlaylistBackup, 0)` to
the end of the playlist loop. -/
def callbackBackup (client : Remote) (fuel : Nat) (playlists : List SimplePlaylist)
    (calls : List Call) : BackupRun :=
  callbackPlaylistLoop client fuel playlists [] calls

/-! ## Restore: the `/restore` handler from `const batchSize = 100` on -/

/-- Rounding of a rational to the nearest integer, ties to even. -/
def roundHalfEven (q : ℚ) : ℤ :=
  if q - ⌊q⌋ < 1 / 2 then ⌊q⌋
  else if 1 / 2 < q - ⌊q⌋ then ⌊q⌋ + 1
  else if ⌊q⌋ % 2 = 0 then ⌊q⌋ else ⌊q⌋ + 1

/-- IEEE 754 binary64 rounding (round to nearest, ties to even) of a real
value to a 53-bit significand.  A finite `float64` is the rational it
denotes.  The exponent is not bounded here: the function is the binary64
rounding for every value of magnitude between `2^-1022` and `2^1023`, and
the values this program rounds (counts below `2^63`, their quotients, and
the quotients times 100) are all in that range. -/
def float64Round (q : ℚ) : ℚ :=
  if q = 0 then 0
  else (roundHalfEven (q / 2 ^ (Int.log 2 |q| - 52)) : ℚ) * 2 ^ (Int.log 2 |q| - 52)

/-- The expression
`float64(processedTracks) / float64(totalTracks) * 100`: two conversions, a
division and a multiplication, each rounded.  The batch loop evaluates it
only when `totalTracks > 0`. -/
def progressPercent (processedTracks totalTracks : Nat) : ℚ :=
  float64Round
    (float64Round (float64Round processedTracks / float64Round totalTracks) * 100)

/-- Source: `const batchSize = 100`. -/
def batchSize : Nat := 100

/-- The `log.Printf` lines of the restore, with their arguments. -/
inductive LogEntry where
  | processing (playlistName : GoString)
  | progress (playlistName : GoString) (progress : ℚ) (first last totalTracks : Nat)
  | batchError (playlistName : GoString) (err : GoError)
  | completed (playlistName : GoString) (totalTracks : Nat)
deriving DecidableEq, Repr

/-- The response a handler writes. -/
inductive Response where
  | redirect (url : String) (code : Nat)
deriving DecidableEq, Repr

/-- The loop `for _, track := range playlist.Tracks` that fills `trackIDs`.
The slice expression `track.URI[14:]` panics when `len(track.URI) < 14`:
`none`. -/
def restoreTrackIDs : List TrackBackup → List GoString → Option (List GoString)
  | [], trackIDs => some trackIDs
  | track :: rest, trackIDs =>
    if 14 ≤ track.URI.length then restoreTrackIDs rest (trackIDs ++ [track.URI.drop 14])
    else none

/-- The loop `for i := 0; i < len(trackIDs); i += batchSize`, from the values
of `i` and `processedTracks` at the loop test.  The first argument bounds the
number of iterations (`none` when it is used up); the loop needs at most
`len(trackIDs)` of them (`restoreBatchLoop_isSome`). -/
def restoreBatchLoop (client : Remote) (playlistName newPlaylistID : GoString)
    (trackIDs : List GoString) (totalTracks : Nat) :
    Nat → Nat → Nat → List Call → List LogEntry → Option (List Call × List LogEntry)
  | 0, i, _, calls, logs => if i < trackIDs.length then none else some (calls, logs)
  | fuel + 1, i, processedTracks, calls, logs =>
    if i < trackIDs.length then
      let endIdx := if i + batchSize > trackIDs.length then trackIDs.length else i + batchSize
      let currentBatch := (trackIDs.take endIdx).drop i
      let processedTracks := processedTracks + currentBatch.length
      let logs := logs ++ [LogEntry.progress playlistName
        (progressPercent processedTracks totalTracks) (i + 1) endIdx totalTracks]
      match client.AddTracksToPlaylist calls newPlaylistID currentBatch with
      | .error err =>
        restoreBatchLoop client playlistName newPlaylistID trackIDs totalTracks fuel
          (i + batchSize) processedTracks
          (calls ++ [Call.addTracksToPlaylist newPlaylistID currentBatch])
          (logs ++ [LogEntry.batchError playlistName err])
      | .ok _ =>
        restoreBatchLoop client playlistName newPlaylistID trackIDs totalTracks fuel
          (i + batchSize) processedTracks
          (calls ++ [Call.addTracksToPlaylist newPlaylistID currentBatch]) logs
    else some (calls, logs)

/-- The state after one pass of the body of `for _, playlist := range
playlists`: the calls made, the log lines, and whether the pass ran to its end
(`completed`, also after the `continue` on a failed creation) or panicked. -/
structure PlaylistRun where
  calls : List Call
  logs : List LogEntry
  status : Status
deriving DecidableEq, Repr

/-- The body of `for _, playlist := range playlists` in the `/restore`
handler. -/
def restorePlaylistBody (client : Remote) (userID : GoString) (playlist : PlaylistBackup)
    (calls : List Call) (logs : List LogEntry) : PlaylistRun :=
  match client.CreatePlaylistForUser calls userID playlist.Name [] false false with
  | .error _ =>
    ⟨calls ++ [Call.createPlaylistForUser userID playlist.Name [] false false],
      logs ++ [LogEntry.processing playlist.Name], .completed⟩
  | .ok newPlaylistID =>
    match restoreTrackIDs (removeDuplicateTracks playlist.Tracks) [] with
    | none =>
      ⟨calls ++ [Call.createPlaylistForUser userID playlist.Name [] false false],
        logs ++ [LogEntry.processing playlist.Name], .panicked⟩
    | some trackIDs =>
      match restoreBatchLoop client playlist.Name newPlaylistID trackIDs trackIDs.length
          trackIDs.length 0 0
          (calls ++ [Call.createPlaylistForUser userID playlist.Name [] false false])
          (logs ++ [LogEntry.processing playlist.Name]) with
      | none =>
        ⟨calls ++ [Call.createPlaylistForUser userID playlist.Name [] false false],
          logs ++ [LogEntry.processing playlist.Name], .outOfFuel⟩
      | some (calls, logs) =>
        ⟨calls, logs ++ [LogEntry.completed playlist.Name trackIDs.length], .completed⟩

/-- The state a run of the `/restore` handler leaves: the calls made, the log
lines, how the run ended, and the response written (none after a panic). -/
structure RestoreRun where
  calls : List Call
  logs : List LogEntry
  status : Status
  response : Option Response
deriving DecidableEq, Repr

/-- The loop `for _, playlist := range playlists` of the `/restore` handler,
followed by `http.Redirect(w, r, "/", http.StatusSeeOther)`. -/
def restorePlaylistLoop (client : Remote) (userID : GoString) :
    List PlaylistBackup → List Call → List LogEntry → RestoreRun
  | [], calls, logs => ⟨calls, logs, .completed, some (.redirect "/" 303)⟩
  | playlist :: rest, calls, logs =>
    match restorePlaylistBody client userID playlist calls logs with
    | ⟨calls, logs, .completed⟩ => restorePlaylistLoop client userID rest calls logs
    | ⟨calls, logs, status⟩ => ⟨calls, logs, status, none⟩

/-- The `/restore` handler from `const batchSize = 100` to its end, for the
decoded document `playlists` and the ID of the current user. -/
def restoreHandler (client : Remote) (userID : GoString) (playlists : List PlaylistBackup)
    (calls : List Call) : RestoreRun :=
  restorePlaylistLoop client userID playlists calls []

/-! ## Auxiliary definitions for the statements -/

/-- The first `n` page requests in the order the claim gives them: limit 100,
offsets 0, 100, 200, ... -/
def pageCalls (playlistID : GoString) (n : Nat) : List Call :=
  (List.range n).map
    (fun (k : Nat) => Call.getPlaylistItems playlistID 100 (100 * (k : Int)))

/-- The answer of the remote to the request for page `k` (offset `100 * k`),
asked after `calls` and after the requests for the pages before it. -/
def pageAt (client : Remote) (playlistID : GoString) (calls : List Call) (k : Nat) :
    Except GoError (List PlaylistItem) :=
  client.GetPlaylistItems (calls ++ pageCalls playlistID k) playlistID 100 (100 * (k : Int))

/-- An item that has a track whose name is empty. -/
def emptyNamed (item : PlaylistItem) : Bool :=
  match item.Track.Track with
  | some fullTrack => decide (fullTrack.Name = [])
  | none => false

/-- The playlists the `/callback` loop fetches, in order, each with what
`getPlaylistTracks` returned for it (up to the first fetch that does not
return within `fuel` iterations). -/
def fetchedPlaylists (client : Remote) (fuel : Nat) :
    List SimplePlaylist → List Call → List (SimplePlaylist × Fetched)
  | [], _ => []
  | playlist :: rest, calls =>
    match getPlaylistTracks client fuel playlist.ID calls with
    | none => []
    | some fetched => (playlist, fetched) :: fetchedPlaylists client fuel rest fetched.calls

/-- The claim's words for the backup document: the names, in order, of the
playlists whose fetch returned a nil error. -/
def fetchedNames (client : Remote) (fuel : Nat) (playlists : List SimplePlaylist)
    (calls : List Call) : List GoString :=
  ((fetchedPlaylists client fuel playlists calls).filter
    (fun pf => pf.2.err.isNone)).map (fun pf => pf.1.Name)

/-- The claim's words for the batches: batch `k` holds the identifiers at the
positions `100 * k`, ..., `100 * k + 99`, and there are `ceil(N / 100)`
batches. -/
def batchesOf (trackIDs : List GoString) : List (List GoString) :=
  (List.range ((trackIDs.length + 99) / 100)).map
    (fun (k : Nat) => (trackIDs.drop (100 * k)).take 100)

/-- The identifier list of a track list: each URI without its first 14
bytes. -/
def identifiersOf (tracks : List TrackBackup) : List GoString :=
  tracks.map (fun t => t.URI.drop 14)

/-- The progress value of a progress log line. -/
def LogEntry.progressValue : LogEntry → Option ℚ
  | .progress _ value _ _ _ => some value
  | _ => none

/-- The playlist name of a create-playlist call. -/
def Call.createdName : Call → Option GoString
  | .createPlaylistForUser _ playlistName _ _ _ => some playlistName
  | _ => none

/-- The calls of a restore in the claims' words: for each playlist in document
order one create call, followed, when the creation succeeds, by one add-tracks
call per batch of the identifiers of its deduplicated tracks. -/
def expectedCalls (client : Remote) (userID : GoString) :
    List PlaylistBackup → List Call → List Call
  | [], calls => calls
  | playlist :: rest, calls =>
    match client.CreatePlaylistForUser calls userID playlist.Name [] false false with
    | .error _ =>
      expectedCalls client userID rest
        (calls ++ [Call.createPlaylistForUser userID playlist.Name [] false false])
    | .ok newPlaylistID =>
      expectedCalls client userID rest
        (calls ++ [Call.createPlaylistForUser userID playlist.Name [] false false] ++
          (batchesOf (identifiersOf (removeDuplicateTracks playlist.Tracks))).map
            (Call.addTracksToPlaylist newPlaylistID))

/-! ## Concrete inputs -/

/-- A remote item for the track `name` with the given artists and URI. -/
def itemOf (name : String) (artists : List String) (uri : String) : PlaylistItem :=
  ⟨⟨some ⟨ascii name, artists.map (fun a => ⟨ascii a⟩), ⟨ascii "Album"⟩, ascii uri⟩⟩⟩

/-- A remote on which every call succeeds; every playlist has the single item
`item`, except playlist `p2`, which has the single item `item2`. -/
def remoteWith (item item2 : PlaylistItem) : Remote where
  GetPlaylistItems := fun _ playlistID _ _ =>
    if playlistID = ascii "p2" then .ok [item2] else .ok [item]
  CreatePlaylistForUser := fun _ _ playlistName _ _ _ => .ok (ascii "new-" ++ playlistName)
  AddTracksToPlaylist := fun _ _ _ => .ok (ascii "snapshot")

/-- A remote on which the page requests for playlist `p1` fail; playlist `p2`
has the single item `item2` and every other playlist the single item `item`. -/
def remoteFetchFails (item item2 : PlaylistItem) : Remote where
  GetPlaylistItems := fun _ playlistID _ _ =>
    if playlistID = ascii "p1" then .error "fetch failed"
    else if playlistID = ascii "p2" then .ok [item2] else .ok [item]
  CreatePlaylistForUser := fun _ _ playlistName _ _ _ => .ok (ascii "new-" ++ playlistName)
  AddTracksToPlaylist := fun _ _ _ => .ok (ascii "snapshot")

/-- A well-formed item. -/
def goodItem : PlaylistItem := itemOf "Song" ["Artist"] "spotify:track:abc"

/-- A second well-formed item, with two artists. -/
def otherItem : PlaylistItem := itemOf "Tune" ["First", "Second"] "spotify:track:xyz"

/-- An item with a name and no listed artist. -/
def artistlessItem : PlaylistItem := itemOf "Song" [] "spotify:track:abc"

/-- An item with a name, an artist and an empty URI. -/
def emptyUriItem : PlaylistItem := itemOf "Song" ["Artist"] ""

/-- Three playlists `p1`, `p2`, `p3`. -/
def threePlaylists : List SimplePlaylist :=
  [⟨ascii "p1", ascii "One"⟩, ⟨ascii "p2", ascii "Two"⟩, ⟨ascii "p3", ascii "Three"⟩]

/-- A track record with the given name and URI. -/
def trackOf (name uri : String) : TrackBackup :=
  ⟨ascii name, ascii "Artist", ascii "Album", ascii uri⟩

/-- A remote on which only the creation of the playlist named `failing`
fails. -/
def remoteCreateFails (failing : GoString) : Remote where
  GetPlaylistItems := fun _ _ _ _ => .ok []
  CreatePlaylistForUser := fun _ _ playlistName _ _ _ =>
    if playlistName = failing then .error "create failed"
    else .ok (ascii "new-" ++ playlistName)
  AddTracksToPlaylist := fun _ _ _ => .ok (ascii "snapshot")

/-- A remote whose first page (offset 0) is full and whose later pages hold
one item. -/
def pagedRemote : Remote where
  GetPlaylistItems := fun _ _ _ offset =>
    if offset = 0 then .ok (List.replicate 100 goodItem) else .ok [goodItem]
  CreatePlaylistForUser := fun _ _ playlistName _ _ _ => .ok (ascii "new-" ++ playlistName)
  AddTracksToPlaylist := fun _ _ _ => .ok (ascii "snapshot")

/-- The pages of `pagedRemote`. -/
def pagedPages (k : Nat) : List PlaylistItem :=
  if k = 0 then List.replicate 100 goodItem else [goodItem]

/-- A playlist with a repeated track and a track whose URI has no
`spotify:track:` in front. -/
def mixedPlaylist : PlaylistBackup :=
  ⟨ascii "One", [trackOf "a" "spotify:track:abc", trackOf "a" "spotify:track:abc",
    trackOf "b" "http://example.org/xyz"]⟩

/-- A playlist with a well-formed track and a track whose URI has one byte. -/
def shortUriPlaylist : PlaylistBackup :=
  ⟨ascii "Two", [trackOf "a" "spotify:track:abc", trackOf "b" "x"]⟩

/-- A playlist with one well-formed track. -/
def plainPlaylist : PlaylistBackup :=
  ⟨ascii "Three", [trackOf "c" "spotify:track:def"]⟩

/-! # Theorems -/

/-! ## Deduplicator: proofs -/

theorem removeDuplicateTracksLoop_eq (rest : List TrackBackup) :
    ∀ (seen : GoString → Bool) (pre : List GoString) (result : List TrackBackup),
      (∀ k, seen k = true ↔ k ∈ pre) →
      removeDuplicateTracksLoop rest seen result = result ++ keepNew pre rest := by
  induction rest with
  | nil => intro seen pre result _; simp [removeDuplicateTracksLoop, keepNew]
  | cons t rest ih =>
    intro seen pre result hs
    by_cases hmem : t.URI ∈ pre
    · have hseen : seen t.URI = true := (hs _).2 hmem
      have hs2 : ∀ k, seen k = true ↔ k ∈ pre ++ [t.URI] := by
        intro k
        rw [hs k, List.mem_append, List.mem_singleton]
        constructor
        · exact Or.inl
        · rintro (h | h)
          · exact h
          · exact h ▸ hmem
      simp only [removeDuplicateTracksLoop, keepNew, hseen, hmem, if_true, Bool.not_true,
        Bool.false_eq_true, if_false]
      exact ih seen _ result hs2
    · have hseen : seen t.URI = false := by
        cases h : seen t.URI with
        | false => rfl
        | true => exact absurd ((hs _).1 h) hmem
      have hs2 : ∀ k, (if k = t.URI then true else seen k) = true ↔ k ∈ pre ++ [t.URI] := by
        intro k
        rw [List.mem_append, List.mem_singleton]
        by_cases hk : k = t.URI
        · simp [hk]
        · simp [hk, hs k]
      simp only [removeDuplicateTracksLoop, keepNew, hseen, hmem, if_true, Bool.not_false,
        if_false]
      rw [ih _ _ (result ++ [t]) hs2]
      simp

theorem removeDuplicateTracks_eq_keepNew (tracks : List TrackBackup) :
    removeDuplicateTracks tracks = keepNew [] tracks := by
  unfold removeDuplicateTracks
  rw [removeDuplicateTracksLoop_eq tracks (fun _ => false) [] [] (by simp)]
  simp

theorem keepNew_eq_filter (rest : List TrackBackup) :
    ∀ pre0 : List TrackBackup,
      ((rest.enumFrom pre0.length).filter
        (fun p => ((pre0 ++ rest).take p.1).all (fun u => decide (u.URI ≠ p.2.URI)))).map
          Prod.snd = keepNew (pre0.map TrackBackup.URI) rest := by
  induction rest with
  | nil => intro pre0; simp [keepNew]
  | cons t rest ih =>
    intro pre0
    have h := ih (pre0 ++ [t])
    simp only [List.length_append, List.length_singleton, List.append_assoc,
      List.singleton_append, List.map_append, List.map_cons, List.map_nil] at h
    simp only [List.enumFrom_cons, List.filter_cons, keepNew]
    have htake : (pre0 ++ t :: rest).take pre0.length = pre0 := by simp
    by_cases hmem : t.URI ∈ pre0.map TrackBackup.URI
    · have hall : (List.take pre0.length (pre0 ++ t :: rest)).all
          (fun u => decide (u.URI ≠ t.URI)) = false := by
        rw [htake]
        rcases List.mem_map.1 hmem with ⟨u, hu, hue⟩
        rw [List.all_eq_false]
        exact ⟨u, hu, by simp [hue]⟩
      simp only [hall, hmem, if_true, Bool.false_eq_true, if_false]
      exact h
    · have hall : (List.take pre0.length (pre0 ++ t :: rest)).all
          (fun u => decide (u.URI ≠ t.URI)) = true := by
        rw [htake, List.all_eq_true]
        intro u hu
        have : u.URI ≠ t.URI := fun hue => hmem (List.mem_map.2 ⟨u, hu, hue⟩)
        simpa using this
      simp only [hall, hmem, if_true, if_false, List.map_cons]
      rw [h]

theorem keepNew_sublist (rest : List TrackBackup) :
    ∀ pre, (keepNew pre rest).Sublist rest := by
  induction rest with
  | nil => intro pre; simp [keepNew]
  | cons t rest ih =>
    intro pre
    simp only [keepNew]
    split
    · exact (ih _).cons _
    · exact (ih _).cons₂ _

theorem keepNew_not_mem (rest : List TrackBackup) :
    ∀ pre, ∀ t ∈ keepNew pre rest, t.URI ∉ pre := by
  induction rest with
  | nil => intro pre t ht; simp [keepNew] at ht
  | cons a rest ih =>
    intro pre t ht
    simp only [keepNew] at ht
    split at ht
    · exact fun h => ih _ t ht (List.mem_append_left _ h)
    · rcases List.mem_cons.1 ht with h | h
      · subst h; assumption
      · exact fun h' => ih _ t h (List.mem_append_left _ h')

theorem keepNew_nodup (rest : List TrackBackup) :
    ∀ pre, ((keepNew pre rest).map TrackBackup.URI).Nodup := by
  induction rest with
  | nil => intro pre; simp [keepNew]
  | cons a rest ih =>
    intro pre
    simp only [keepNew]
    split
    · exact ih _
    · rw [List.map_cons, List.nodup_cons]
      refine ⟨?_, ih _⟩
      intro hmem
      rcases List.mem_map.1 hmem with ⟨u, hu, hue⟩
      exact keepNew_not_mem rest _ u hu (by rw [hue]; simp)

/-- C1: `removeDuplicateTracks` returns exactly the records whose URI does not
occur at an earlier position of the input; the URIs of the output are pairwise
distinct, the output is a subsequence of the input (original relative order)
and it is no longer than the input. -/
theorem removeDuplicateTracks_first_occurrences (tracks : List TrackBackup) :
    removeDuplicateTracks tracks = firstOccurrences tracks ∧
    ((removeDuplicateTracks tracks).map TrackBackup.URI).Nodup ∧
    (removeDuplicateTracks tracks).Sublist tracks ∧
    (removeDuplicateTracks tracks).length ≤ tracks.length := by
  rw [removeDuplicateTracks_eq_keepNew]
  refine ⟨?_, keepNew_nodup tracks [], keepNew_sublist tracks [],
    (keepNew_sublist tracks []).length_le⟩
  have h := keepNew_eq_filter tracks []
  simp only [List.length_nil, List.nil_append, List.map_nil] at h
  rw [← h]
  rfl
/-! ## Paginated fetcher: proofs -/

theorem pageCalls_succ (playlistID : GoString) (n : Nat) :
    pageCalls playlistID (n + 1) =
      pageCalls playlistID n ++ [Call.getPlaylistItems playlistID 100 (100 * (n : Int))] := by
  simp [pageCalls, List.range_succ]

/-- The loop, entered at page `j` with `d` full pages still to come before the
first short one, requests exactly the pages `j`, ..., `j + d` and returns all
that was accumulated. -/
theorem getPlaylistTracksLoop_pages (client : Remote) (playlistID : GoString)
    (calls : List Call) (pages : Nat → List PlaylistItem) (d : Nat) :
    ∀ (j fuel : Nat) (tracks : List PlaylistItem),
      (∀ k, j ≤ k → k ≤ j + d → pageAt client playlistID calls k = .ok (pages k)) →
      (∀ k, j ≤ k → k < j + d → 100 ≤ (pages k).length) →
      (pages (j + d)).length < 100 →
      d < fuel →
      getPlaylistTracksLoop client playlistID 100 fuel tracks (100 * (j : Int))
          (calls ++ pageCalls playlistID j) =
        some ⟨tracks ++ ((List.range' j (d + 1)).map pages).flatten, none,
          calls ++ pageCalls playlistID (j + d + 1)⟩ := by
  induction d with
  | zero =>
    intro j fuel tracks hok _ hshort hfuel
    obtain ⟨fuel, rfl⟩ : ∃ f, fuel = f + 1 := ⟨fuel - 1, by omega⟩
    have hpage := hok j (le_refl _) (by omega)
    unfold pageAt at hpage
    have hlt : ((pages j).length : Int) < 100 := by
      have : (pages j).length < 100 := by simpa using hshort
      exact_mod_cast this
    simp only [getPlaylistTracksLoop, hpage, hlt, if_true, Nat.add_zero, pageCalls_succ,
      List.append_assoc]
    simp
  | succ d ih =>
    intro j fuel tracks hok hfull hshort hfuel
    obtain ⟨fuel, rfl⟩ : ∃ f, fuel = f + 1 := ⟨fuel - 1, by omega⟩
    have hpage := hok j (le_refl _) (by omega)
    unfold pageAt at hpage
    have hge : ¬ ((pages j).length : Int) < 100 := by
      have : 100 ≤ (pages j).length := hfull j (le_refl _) (by omega)
      have h2 : (100 : Int) ≤ ((pages j).length : Int) := by exact_mod_cast this
      omega
    have hnext := ih (j + 1) fuel (tracks ++ pages j)
      (fun k h1 h2 => hok k (by omega) (by omega))
      (fun k h1 h2 => hfull k (by omega) (by omega))
      (by rw [show j + 1 + d = j + (d + 1) by omega]; exact hshort)
      (by omega)
    have hc : calls ++ pageCalls playlistID (j + 1) =
        calls ++ pageCalls playlistID j ++
          [Call.getPlaylistItems playlistID 100 (100 * (j : Int))] := by
      rw [pageCalls_succ, List.append_assoc]
    rw [hc] at hnext
    simp only [getPlaylistTracksLoop, hpage, hge, if_false]
    rw [show (100 * (j : Int) + 100) = 100 * ((j + 1 : Nat) : Int) by push_cast; ring]
    rw [hnext, show j + 1 + d + 1 = j + (d + 1) + 1 by omega]
    simp [List.range'_succ]

/-- C3: when no page request fails up to some page that has fewer than 100
items, `getPlaylistTracks` (given enough iterations) requests, with limit 100,
exactly the offsets 0, 100, ..., 100 * n in this order, where page `n` is the
first with fewer than 100 items; it makes no further request; and it returns
the concatenation of the pages 0, ..., n with a nil error.  The offsets are
non-negative and strictly increasing. -/
theorem getPlaylistTracks_pagination (client : Remote) (playlistID : GoString)
    (calls : List Call) (pages : Nat → List PlaylistItem) (m : Nat)
    (hok : ∀ k, k ≤ m → pageAt client playlistID calls k = .ok (pages k))
    (hshort : (pages m).length < 100) :
    ∃ n, n ≤ m ∧ (∀ k, k < n → 100 ≤ (pages k).length) ∧ (pages n).length < 100 ∧
      (∀ fuel, n < fuel →
        getPlaylistTracks client fuel playlistID calls =
          some ⟨((List.range (n + 1)).map pages).flatten, none,
            calls ++ (List.range (n + 1)).map
              (fun (k : Nat) => Call.getPlaylistItems playlistID 100 (100 * (k : Int)))⟩) ∧
      ((List.range (n + 1)).map (fun (k : Nat) => 100 * (k : Int))).Pairwise (fun a b => a < b) ∧
      (∀ o ∈ (List.range (n + 1)).map (fun (k : Nat) => 100 * (k : Int)), 0 ≤ o) := by
  classical
  have hex : ∃ k, (pages k).length < 100 := ⟨m, hshort⟩
  refine ⟨Nat.find hex, Nat.find_min' hex hshort, ?_, Nat.find_spec hex, ?_, ?_, ?_⟩
  · intro k hk
    have := Nat.find_min hex hk
    omega
  · intro fuel hfuel
    have hle : Nat.find hex ≤ m := Nat.find_min' hex hshort
    have h := getPlaylistTracksLoop_pages client playlistID calls pages (Nat.find hex) 0 fuel []
      (fun k _ h2 => hok k (by omega))
      (fun k _ h2 => by
        have := Nat.find_min hex (show k < Nat.find hex by omega)
        omega)
      (by simpa using Nat.find_spec hex)
      hfuel
    have h0 : pageCalls playlistID 0 = [] := rfl
    rw [h0, List.append_nil, Nat.cast_zero, mul_zero, List.nil_append, Nat.zero_add,
      ← List.range_eq_range'] at h
    unfold getPlaylistTracks
    rw [h]
    rfl
  · rw [List.pairwise_map]
    refine (List.pairwise_lt_range _).imp ?_
    intro a b hab
    have : (a : Int) < (b : Int) := by exact_mod_cast hab
    omega
  · intro o ho
    rcases List.mem_map.1 ho with ⟨k, _, rfl⟩
    positivity

/-- The offset of every request is at most the number of items accumulated,
so it stays within the range of a slice length (no overflow of `int`). -/
theorem requested_offset_le_accumulated (client : Remote) (playlistID : GoString) :
    ∀ (fuel : Nat) (tracks : List PlaylistItem) (offset : Int) (calls : List Call)
      (fetched : Fetched),
      offset ≤ (tracks.length : Int) →
      getPlaylistTracksLoop client playlistID 100 fuel tracks offset calls = some fetched →
      fetched.err = none →
      (tracks.length ≤ fetched.tracks.length) ∧
      ∀ c ∈ fetched.calls, c ∈ calls ∨
        ∃ o, c = Call.getPlaylistItems playlistID 100 o ∧ o ≤ (fetched.tracks.length : Int) := by
  intro fuel
  induction fuel with
  | zero => intro tracks offset calls fetched _ h; simp [getPlaylistTracksLoop] at h
  | succ fuel ih =>
    intro tracks offset calls fetched hoff h herr
    simp only [getPlaylistTracksLoop] at h
    cases hpage : client.GetPlaylistItems calls playlistID 100 offset with
    | error e =>
      rw [hpage] at h
      simp only [Option.some.injEq] at h
      subst h
      simp at herr
    | ok page =>
      rw [hpage] at h
      simp only at h
      split at h
      · simp only [Option.some.injEq] at h
        subst h
        refine ⟨by simp, ?_⟩
        intro c hc
        rcases List.mem_append.1 hc with hc | hc
        · exact Or.inl hc
        · refine Or.inr ⟨offset, by simpa using hc, ?_⟩
          simp only [List.length_append, Nat.cast_add]
          omega
      · rename_i hfull
        have hlen : (100 : Int) ≤ (page.length : Int) := by omega
        obtain ⟨h1, h2⟩ := ih (tracks ++ page) (offset + 100) _ fetched (by
          simp only [List.length_append, Nat.cast_add]
          omega) h herr
        refine ⟨by simp only [List.length_append] at h1; omega, ?_⟩
        intro c hc
        rcases h2 c hc with hc | hc
        · rcases List.mem_append.1 hc with hc | hc
          · exact Or.inl hc
          · refine Or.inr ⟨offset, by simpa using hc, ?_⟩
            simp only [List.length_append] at h1
            omega
        · exact Or.inr hc

/-- Every item `getPlaylistTracks` returns comes from a page the remote
answered with. -/
theorem getPlaylistTracksLoop_item_origin (client : Remote) (playlistID : GoString)
    (limit : Int) :
    ∀ (fuel : Nat) (tracks : List PlaylistItem) (offset : Int) (calls : List Call)
      (fetched : Fetched),
      getPlaylistTracksLoop client playlistID limit fuel tracks offset calls = some fetched →
      ∀ item ∈ fetched.tracks, item ∈ tracks ∨
        ∃ history offset page,
          client.GetPlaylistItems history playlistID limit offset = .ok page ∧ item ∈ page := by
  intro fuel
  induction fuel with
  | zero => intro tracks offset calls fetched h; simp [getPlaylistTracksLoop] at h
  | succ fuel ih =>
    intro tracks offset calls fetched h item hitem
    simp only [getPlaylistTracksLoop] at h
    cases hpage : client.GetPlaylistItems calls playlistID limit offset with
    | error e =>
      rw [hpage] at h
      simp only [Option.some.injEq] at h
      subst h
      simp at hitem
    | ok page =>
      rw [hpage] at h
      simp only at h
      split at h
      · simp only [Option.some.injEq] at h
        subst h
        rcases List.mem_append.1 hitem with hi | hi
        · exact Or.inl hi
        · exact Or.inr ⟨calls, offset, page, hpage, hi⟩
      · rcases ih _ _ _ fetched h item hitem with hi | hi
        · rcases List.mem_append.1 hi with hi | hi
          · exact Or.inl hi
          · exact Or.inr ⟨calls, offset, page, hpage, hi⟩
        · exact Or.inr hi

/-- On a failed page request `getPlaylistTracks` returns the error and no
items. -/
theorem getPlaylistTracksLoop_err_no_items (client : Remote) (playlistID : GoString)
    (limit : Int) :
    ∀ (fuel : Nat) (tracks : List PlaylistItem) (offset : Int) (calls : List Call)
      (fetched : Fetched),
      getPlaylistTracksLoop client playlistID limit fuel tracks offset calls = some fetched →
      ∀ err, fetched.err = some err →
        fetched.tracks = [] ∧
        ∃ history offset, client.GetPlaylistItems history playlistID limit offset = .error err := by
  intro fuel
  induction fuel with
  | zero => intro tracks offset calls fetched h; simp [getPlaylistTracksLoop] at h
  | succ fuel ih =>
    intro tracks offset calls fetched h err herr
    simp only [getPlaylistTracksLoop] at h
    cases hpage : client.GetPlaylistItems calls playlistID limit offset with
    | error e =>
      rw [hpage] at h
      simp only [Option.some.injEq] at h
      subst h
      simp only [Option.some.injEq] at herr
      subst herr
      exact ⟨rfl, calls, offset, hpage⟩
    | ok page =>
      rw [hpage] at h
      simp only at h
      split at h
      · simp only [Option.some.injEq] at h
        subst h
        simp at herr
      · exact ih _ _ _ fetched h err herr
/-! ## Backup: proofs -/

theorem normalizeItem_record {item : PlaylistItem} {t : TrackBackup}
    (h : normalizeItem item = .record t) :
    ∃ fullTrack artist artists, item.Track.Track = some fullTrack ∧
      fullTrack.Artists = artist :: artists ∧ fullTrack.Name ≠ [] ∧
      t = ⟨fullTrack.Name, artist.Name, fullTrack.Album.Name, fullTrack.URI⟩ := by
  unfold normalizeItem at h
  cases hft : item.Track.Track with
  | none => rw [hft] at h; simp at h
  | some ft =>
    rw [hft] at h
    simp only at h
    by_cases hname : ft.Name = []
    · simp [hname] at h
    · cases hart : ft.Artists with
      | nil => simp [hname, hart] at h
      | cons a as =>
        simp only [hname, hart, if_false, Normalized.record.injEq] at h
        exact ⟨ft, a, as, rfl, hart, hname, h.symm⟩

theorem callbackTrackLoop_origin :
    ∀ (items : List PlaylistItem) (tracks out : List TrackBackup),
      callbackTrackLoop items tracks = some out →
      ∀ t ∈ out, t ∈ tracks ∨ ∃ item ∈ items, normalizeItem item = .record t := by
  intro items
  induction items with
  | nil =>
    intro tracks out h t ht
    simp only [callbackTrackLoop, Option.some.injEq] at h
    subst h
    exact Or.inl ht
  | cons item rest ih =>
    intro tracks out h t ht
    simp only [callbackTrackLoop] at h
    cases hn : normalizeItem item with
    | skip =>
      rw [hn] at h
      rcases ih _ _ h t ht with h1 | ⟨it, hit, hrec⟩
      · exact Or.inl h1
      · exact Or.inr ⟨it, List.mem_cons_of_mem _ hit, hrec⟩
    | record tb =>
      rw [hn] at h
      rcases ih _ _ h t ht with h1 | ⟨it, hit, hrec⟩
      · rcases List.mem_append.1 h1 with h1 | h1
        · exact Or.inl h1
        · have : t = tb := by simpa using h1
          subst this
          exact Or.inr ⟨item, List.mem_cons_self _ _, hn⟩
      · exact Or.inr ⟨it, List.mem_cons_of_mem _ hit, hrec⟩
    | panic => rw [hn] at h; simp at h

theorem callbackPlaylistLoop_origin (client : Remote) (fuel : Nat) :
    ∀ (playlists : List SimplePlaylist) (backupData : List PlaylistBackup) (calls : List Call),
      ∀ pb ∈ (callbackPlaylistLoop client fuel playlists backupData calls).backupData,
        pb ∈ backupData ∨
        ∃ playlist ∈ playlists, ∃ calls0 fetched,
          getPlaylistTracks client fuel playlist.ID calls0 = some fetched ∧
          fetched.err = none ∧
          callbackTrackLoop fetched.tracks [] = some pb.Tracks ∧ pb.Name = playlist.Name := by
  intro playlists
  induction playlists with
  | nil => intro backupData calls pb hpb; exact Or.inl hpb
  | cons playlist rest ih =>
    intro backupData calls pb hpb
    simp only [callbackPlaylistLoop] at hpb
    cases hf : getPlaylistTracks client fuel playlist.ID calls with
    | none => rw [hf] at hpb; exact Or.inl hpb
    | some fetched =>
      rw [hf] at hpb
      simp only at hpb
      cases herr : fetched.err with
      | some e =>
        rw [herr] at hpb
        rcases ih _ _ pb hpb with h | ⟨p, hp, rest'⟩
        · exact Or.inl h
        · exact Or.inr ⟨p, List.mem_cons_of_mem _ hp, rest'⟩
      | none =>
        rw [herr] at hpb
        simp only at hpb
        cases ht : callbackTrackLoop fetched.tracks [] with
        | none => rw [ht] at hpb; exact Or.inl hpb
        | some tracks =>
          rw [ht] at hpb
          rcases ih _ _ pb hpb with h | ⟨p, hp, rest'⟩
          · rcases List.mem_append.1 h with h | h
            · exact Or.inl h
            · have : pb = ⟨playlist.Name, tracks⟩ := by simpa using h
              subst this
              exact Or.inr ⟨playlist, List.mem_cons_self _ _, calls, fetched, hf, herr, ht, rfl⟩
          · exact Or.inr ⟨p, List.mem_cons_of_mem _ hp, rest'⟩

/-- Every track record of the backup is the normal form of an item of a page
the remote answered with. -/
theorem callbackBackup_record_origin (client : Remote) (fuel : Nat)
    (playlists : List SimplePlaylist) (calls : List Call) :
    ∀ pb ∈ (callbackBackup client fuel playlists calls).backupData, ∀ t ∈ pb.Tracks,
      ∃ history playlistID offset page item,
        client.GetPlaylistItems history playlistID 100 offset = .ok page ∧ item ∈ page ∧
        normalizeItem item = .record t := by
  intro pb hpb t ht
  rcases callbackPlaylistLoop_origin client fuel playlists [] calls pb hpb with h | h
  · simp at h
  · obtain ⟨playlist, _, calls0, fetched, hf, _, htl, _⟩ := h
    rcases callbackTrackLoop_origin _ _ _ htl t ht with h1 | ⟨item, hitem, hrec⟩
    · simp at h1
    · rcases getPlaylistTracksLoop_item_origin client playlist.ID 100 fuel [] 0 calls0 fetched hf
        item hitem with h2 | ⟨history, offset, page, hpage, hin⟩
      · simp at h2
      · exact ⟨history, playlist.ID, offset, page, item, hpage, hin, hrec⟩

theorem callbackTrackLoop_filter :
    ∀ (items : List PlaylistItem) (tracks : List TrackBackup),
      callbackTrackLoop items tracks =
        callbackTrackLoop (items.filter (fun item => !emptyNamed item)) tracks := by
  intro items
  induction items with
  | nil => intro tracks; rfl
  | cons item rest ih =>
    intro tracks
    cases hft : item.Track.Track with
    | none =>
      have he : emptyNamed item = false := by simp [emptyNamed, hft]
      have hn : normalizeItem item = .panic := by simp [normalizeItem, hft]
      simp [List.filter_cons, he, callbackTrackLoop, hn]
    | some ft =>
      by_cases hname : ft.Name = []
      · have he : emptyNamed item = true := by simp [emptyNamed, hft, hname]
        have hn : normalizeItem item = .skip := by simp [normalizeItem, hft, hname]
        simp only [List.filter_cons, he, callbackTrackLoop, hn, Bool.not_true,
          Bool.false_eq_true, if_false]
        exact ih tracks
      · have he : emptyNamed item = false := by simp [emptyNamed, hft, hname]
        simp only [List.filter_cons, he, Bool.not_false, if_true, callbackTrackLoop]
        cases normalizeItem item with
        | skip => exact ih _
        | record t => exact ih _
        | panic => rfl

/-- C4: no track record of a playlist record built by the `/callback` handler
has an empty name; an item whose track name is empty is skipped whatever its
artists (an empty list included), album and URI are, and the track loop gives
the same result as on the item list without the items whose track name is
empty. -/
theorem callback_no_empty_name (client : Remote) (fuel : Nat)
    (playlists : List SimplePlaylist) (calls : List Call) :
    (∀ pb ∈ (callbackBackup client fuel playlists calls).backupData,
      ∀ t ∈ pb.Tracks, t.Name ≠ []) ∧
    (∀ artists album uri,
      normalizeItem ⟨⟨some ⟨[], artists, album, uri⟩⟩⟩ = Normalized.skip) ∧
    (∀ (items : List PlaylistItem) (tracks : List TrackBackup),
      callbackTrackLoop items tracks =
        callbackTrackLoop (items.filter (fun item => !emptyNamed item)) tracks) := by
  refine ⟨?_, ?_, callbackTrackLoop_filter⟩
  · intro pb hpb t ht
    obtain ⟨_, _, _, _, item, _, _, hrec⟩ :=
      callbackBackup_record_origin client fuel playlists calls pb hpb t ht
    obtain ⟨ft, a, as, _, _, hname, rfl⟩ := normalizeItem_record hrec
    exact hname
  · intro artists album uri
    simp [normalizeItem]

/-- On an entry that has a track with at least one listed artist the
normalisation is a skip exactly when the name is empty, and else the record
with the entry's name, first artist, album and URI. -/
theorem normalizeItem_of_artist (fullTrack : FullTrack) (artist : SimpleArtist)
    (artists : List SimpleArtist) (h : fullTrack.Artists = artist :: artists) :
    normalizeItem ⟨⟨some fullTrack⟩⟩ =
      if fullTrack.Name = [] then Normalized.skip
      else Normalized.record
        ⟨fullTrack.Name, artist.Name, fullTrack.Album.Name, fullTrack.URI⟩ := by
  simp only [normalizeItem, h]

/-- C5: on an entry with a non-empty name and no listed artist the
normalisation panics (`Artists[0]` on an empty slice), and the `/callback`
handler that meets such an entry ends in the panic. -/
theorem normalizeItem_panics_without_artist :
    normalizeItem artistlessItem = Normalized.panic ∧
    (callbackBackup (remoteWith artistlessItem artistlessItem) 1
      [⟨ascii "p1", ascii "One"⟩] []).status = Status.panicked := by
  decide

/-- The backup document of a run that did not panic holds exactly one record,
in playlist order and under the same name, for each playlist whose fetch
returned a nil error, and none for a playlist whose fetch returned an
error. -/
theorem callbackPlaylistLoop_names (client : Remote) (fuel : Nat) :
    ∀ (playlists : List SimplePlaylist) (backupData : List PlaylistBackup) (calls : List Call),
      (callbackPlaylistLoop client fuel playlists backupData calls).status ≠ Status.panicked →
      (callbackPlaylistLoop client fuel playlists backupData calls).backupData.map
          PlaylistBackup.Name =
        backupData.map PlaylistBackup.Name ++ fetchedNames client fuel playlists calls := by
  intro playlists
  induction playlists with
  | nil => intro backupData calls _; simp [callbackPlaylistLoop, fetchedNames, fetchedPlaylists]
  | cons playlist rest ih =>
    intro backupData calls hstatus
    simp only [callbackPlaylistLoop] at hstatus ⊢
    cases hf : getPlaylistTracks client fuel playlist.ID calls with
    | none => simp [fetchedNames, fetchedPlaylists, hf]
    | some fetched =>
      rw [hf] at hstatus
      simp only at hstatus ⊢
      cases herr : fetched.err with
      | some e =>
        rw [herr] at hstatus
        simp only at hstatus ⊢
        rw [ih _ _ hstatus]
        simp [fetchedNames, fetchedPlaylists, hf, herr, List.filter_cons]
      | none =>
        rw [herr] at hstatus
        simp only at hstatus ⊢
        cases ht : callbackTrackLoop fetched.tracks [] with
        | none => rw [ht] at hstatus; exact absurd rfl hstatus
        | some tracks =>
          rw [ht] at hstatus
          simp only at hstatus ⊢
          rw [ih _ _ hstatus]
          simp [fetchedNames, fetchedPlaylists, hf, herr, List.filter_cons]

/-- C6: the page request for the first playlist fails, the fetches of the
second and third succeed, and the item of the second has no listed artist.
`getPlaylistTracks` returns the error and no items for the first playlist and
the item with a nil error for the second; the handler then panics in the
second playlist, so the backup document holds no record at all, and the third
playlist is never fetched. -/
theorem callbackBackup_drops_fetched_playlist :
    getPlaylistTracks (remoteFetchFails goodItem artistlessItem) 1 (ascii "p1") [] =
      some ⟨[], some "fetch failed", [Call.getPlaylistItems (ascii "p1") 100 0]⟩ ∧
    getPlaylistTracks (remoteFetchFails goodItem artistlessItem) 1 (ascii "p2")
        [Call.getPlaylistItems (ascii "p1") 100 0] =
      some ⟨[artistlessItem], none,
        [Call.getPlaylistItems (ascii "p1") 100 0, Call.getPlaylistItems (ascii "p2") 100 0]⟩ ∧
    (callbackBackup (remoteFetchFails goodItem artistlessItem) 1 threePlaylists []).backupData =
      [] ∧
    (callbackBackup (remoteFetchFails goodItem artistlessItem) 1 threePlaylists []).status =
      Status.panicked ∧
    (callbackBackup (remoteFetchFails goodItem artistlessItem) 1 threePlaylists []).calls =
      [Call.getPlaylistItems (ascii "p1") 100 0, Call.getPlaylistItems (ascii "p2") 100 0] := by
  decide

/-- C10, as stated, fails: an item with a name, an artist and an empty URI
yields a track record with an empty URI. -/
theorem callbackBackup_empty_uri :
    (callbackBackup (remoteWith emptyUriItem emptyUriItem) 1 [⟨ascii "p1", ascii "One"⟩]
      []).backupData =
      [⟨ascii "One", [⟨ascii "Song", ascii "Artist", ascii "Album", []⟩]⟩] ∧
    ¬ (∀ pb ∈ (callbackBackup (remoteWith emptyUriItem emptyUriItem) 1
        [⟨ascii "p1", ascii "One"⟩] []).backupData, ∀ t ∈ pb.Tracks, t.URI ≠ []) := by
  decide

/-- C10, amended: every track record of every playlist record of the backup
carries the URI (and the name) of a remote item it is the normal form of, an
item of a page the remote answered with; and when every item the remote
returns with a non-empty track name has a non-empty URI, every track record
of every playlist record of the backup has a non-empty URI. -/
theorem callbackBackup_uri_of_item (client : Remote) (fuel : Nat)
    (playlists : List SimplePlaylist) (calls : List Call) :
    (∀ pb ∈ (callbackBackup client fuel playlists calls).backupData, ∀ t ∈ pb.Tracks,
      ∃ history playlistID offset page item fullTrack,
        client.GetPlaylistItems history playlistID 100 offset = .ok page ∧ item ∈ page ∧
        item.Track.Track = some fullTrack ∧ normalizeItem item = Normalized.record t ∧
        t.Name = fullTrack.Name ∧ t.URI = fullTrack.URI) ∧
    ((∀ history playlistID offset page,
        client.GetPlaylistItems history playlistID 100 offset = .ok page →
        ∀ item ∈ page, ∀ fullTrack, item.Track.Track = some fullTrack →
          fullTrack.Name ≠ [] → fullTrack.URI ≠ []) →
      ∀ pb ∈ (callbackBackup client fuel playlists calls).backupData,
        ∀ t ∈ pb.Tracks, t.URI ≠ []) := by
  have horigin : ∀ pb ∈ (callbackBackup client fuel playlists calls).backupData,
      ∀ t ∈ pb.Tracks,
      ∃ history playlistID offset page item fullTrack,
        client.GetPlaylistItems history playlistID 100 offset = .ok page ∧ item ∈ page ∧
        item.Track.Track = some fullTrack ∧ normalizeItem item = Normalized.record t ∧
        fullTrack.Name ≠ [] ∧ t.Name = fullTrack.Name ∧ t.URI = fullTrack.URI := by
    intro pb hpb t ht
    obtain ⟨history, playlistID, offset, page, item, hpage, hin, hrec⟩ :=
      callbackBackup_record_origin client fuel playlists calls pb hpb t ht
    obtain ⟨ft, a, as, hft, _, hname, heq⟩ := normalizeItem_record hrec
    refine ⟨history, playlistID, offset, page, item, ft, hpage, hin, hft, hrec, hname, ?_, ?_⟩
    · rw [heq]
    · rw [heq]
  constructor
  · intro pb hpb t ht
    obtain ⟨history, playlistID, offset, page, item, ft, hpage, hin, hft, hrec, _, hn, hu⟩ :=
      horigin pb hpb t ht
    exact ⟨history, playlistID, offset, page, item, ft, hpage, hin, hft, hrec, hn, hu⟩
  · intro huri pb hpb t ht
    obtain ⟨history, playlistID, offset, page, item, ft, hpage, hin, hft, _, hname, _, hu⟩ :=
      horigin pb hpb t ht
    rw [hu]
    exact huri history playlistID offset page hpage item hin ft hft hname

theorem callbackBackup_uri_of_item_witness :
    (∀ history playlistID offset page,
      (remoteWith goodItem otherItem).GetPlaylistItems history playlistID 100 offset = .ok page →
      ∀ item ∈ page, ∀ fullTrack, item.Track.Track = some fullTrack →
        fullTrack.Name ≠ [] → fullTrack.URI ≠ []) ∧
    (callbackBackup (remoteWith goodItem otherItem) 1 threePlaylists []).backupData =
      [⟨ascii "One", [⟨ascii "Song", ascii "Artist", ascii "Album", ascii "spotify:track:abc"⟩]⟩,
        ⟨ascii "Two", [⟨ascii "Tune", ascii "First", ascii "Album", ascii "spotify:track:xyz"⟩]⟩,
        ⟨ascii "Three",
          [⟨ascii "Song", ascii "Artist", ascii "Album", ascii "spotify:track:abc"⟩]⟩] ∧
    ∀ pb ∈ (callbackBackup (remoteWith goodItem otherItem) 1 threePlaylists []).backupData,
      ∀ t ∈ pb.Tracks, t.URI ≠ [] := by
  have huri : ∀ history playlistID offset page,
      (remoteWith goodItem otherItem).GetPlaylistItems history playlistID 100 offset = .ok page →
      ∀ item ∈ page, ∀ fullTrack, item.Track.Track = some fullTrack →
        fullTrack.Name ≠ [] → fullTrack.URI ≠ [] := by
    intro history playlistID offset page hpage item hitem ft hft _
    have hp : page = [otherItem] ∨ page = [goodItem] := by
      simp only [remoteWith] at hpage
      split at hpage
      · exact Or.inl (by simpa using hpage.symm)
      · exact Or.inr (by simpa using hpage.symm)
    rcases hp with hp | hp
    · subst hp
      have hi : item = otherItem := by simpa using hitem
      subst hi
      have h2 : otherItem.Track.Track =
          some ⟨ascii "Tune", [⟨ascii "First"⟩, ⟨ascii "Second"⟩], ⟨ascii "Album"⟩,
            ascii "spotify:track:xyz"⟩ := rfl
      rw [h2] at hft
      rw [← Option.some.inj hft]
      decide
    · subst hp
      have hi : item = goodItem := by simpa using hitem
      subst hi
      have h2 : goodItem.Track.Track =
          some ⟨ascii "Song", [⟨ascii "Artist"⟩], ⟨ascii "Album"⟩, ascii "spotify:track:abc"⟩ :=
        rfl
      rw [h2] at hft
      rw [← Option.some.inj hft]
      decide
  exact ⟨huri, by decide,
    (callbackBackup_uri_of_item (remoteWith goodItem otherItem) 1 threePlaylists []).2 huri⟩
/-! ## Rounding to `float64`: proofs -/

theorem roundHalfEven_floor_le (q : ℚ) : ⌊q⌋ ≤ roundHalfEven q := by
  unfold roundHalfEven
  split_ifs <;> omega

theorem roundHalfEven_le_floor_succ (q : ℚ) : roundHalfEven q ≤ ⌊q⌋ + 1 := by
  unfold roundHalfEven
  split_ifs <;> omega

theorem roundHalfEven_intCast (n : ℤ) : roundHalfEven (n : ℚ) = n := by
  unfold roundHalfEven
  simp

theorem roundHalfEven_mono {a b : ℚ} (h : a ≤ b) : roundHalfEven a ≤ roundHalfEven b := by
  have hfl : ⌊a⌋ ≤ ⌊b⌋ := Int.floor_mono h
  rcases lt_or_eq_of_le hfl with hlt | heq
  · calc roundHalfEven a ≤ ⌊a⌋ + 1 := roundHalfEven_le_floor_succ a
      _ ≤ ⌊b⌋ := hlt
      _ ≤ roundHalfEven b := roundHalfEven_floor_le b
  · unfold roundHalfEven
    rw [heq]
    split_ifs <;> first | omega | linarith

theorem float64Round_binade {x : ℚ} (hx : 0 < x) :
    (2 : ℚ) ^ (52 : ℤ) ≤ x / 2 ^ (Int.log 2 |x| - 52) ∧
    x / 2 ^ (Int.log 2 |x| - 52) < (2 : ℚ) ^ (53 : ℤ) := by
  rw [abs_of_pos hx]
  have h1 : ((2 : ℕ) : ℚ) ^ Int.log 2 x ≤ x := Int.zpow_log_le_self (by norm_num) hx
  have h2 : x < ((2 : ℕ) : ℚ) ^ (Int.log 2 x + 1) := Int.lt_zpow_succ_log_self (by norm_num) x
  have hpos : (0 : ℚ) < 2 ^ (Int.log 2 x - 52) := zpow_pos (by norm_num) _
  push_cast at h1 h2
  constructor
  · rw [le_div_iff₀ hpos, ← zpow_add₀ (by norm_num : (2 : ℚ) ≠ 0)]
    simpa using h1
  · rw [div_lt_iff₀ hpos, ← zpow_add₀ (by norm_num : (2 : ℚ) ≠ 0)]
    rw [show (53 : ℤ) + (Int.log 2 x - 52) = Int.log 2 x + 1 by ring]
    exact h2

theorem float64Round_pos_bounds {x : ℚ} (hx : 0 < x) :
    (2 : ℚ) ^ Int.log 2 |x| ≤ float64Round x ∧
    float64Round x ≤ (2 : ℚ) ^ (Int.log 2 |x| + 1) := by
  obtain ⟨h1, h2⟩ := float64Round_binade hx
  have hpos : (0 : ℚ) < 2 ^ (Int.log 2 |x| - 52) := zpow_pos (by norm_num) _
  have hlo : ((2 ^ 52 : ℤ) : ℚ) ≤ (roundHalfEven (x / 2 ^ (Int.log 2 |x| - 52)) : ℚ) := by
    have := roundHalfEven_mono (a := ((2 ^ 52 : ℤ) : ℚ)) (b := x / 2 ^ (Int.log 2 |x| - 52))
      (by push_cast; exact_mod_cast h1)
    rw [roundHalfEven_intCast] at this
    exact_mod_cast this
  have hhi : (roundHalfEven (x / 2 ^ (Int.log 2 |x| - 52)) : ℚ) ≤ ((2 ^ 53 : ℤ) : ℚ) := by
    have := roundHalfEven_mono (a := x / 2 ^ (Int.log 2 |x| - 52)) (b := ((2 ^ 53 : ℤ) : ℚ))
      (by push_cast; exact_mod_cast h2.le)
    rw [roundHalfEven_intCast] at this
    exact_mod_cast this
  unfold float64Round
  rw [if_neg hx.ne']
  constructor
  · calc (2 : ℚ) ^ Int.log 2 |x| = 2 ^ (52 : ℤ) * 2 ^ (Int.log 2 |x| - 52) := by
          rw [← zpow_add₀ (by norm_num : (2 : ℚ) ≠ 0)]; congr 1; ring
      _ ≤ _ := by
          apply mul_le_mul_of_nonneg_right _ hpos.le
          push_cast at hlo
          exact_mod_cast hlo
  · calc _ ≤ (2 : ℚ) ^ (53 : ℤ) * 2 ^ (Int.log 2 |x| - 52) := by
          apply mul_le_mul_of_nonneg_right _ hpos.le
          push_cast at hhi
          exact_mod_cast hhi
      _ = (2 : ℚ) ^ (Int.log 2 |x| + 1) := by
          rw [← zpow_add₀ (by norm_num : (2 : ℚ) ≠ 0)]; congr 1; ring

theorem float64Round_pos {x : ℚ} (hx : 0 < x) : 0 < float64Round x :=
  lt_of_lt_of_le (zpow_pos (by norm_num) _) (float64Round_pos_bounds hx).1

theorem float64Round_nonneg {x : ℚ} (hx : 0 ≤ x) : 0 ≤ float64Round x := by
  rcases hx.lt_or_eq with h | h
  · exact (float64Round_pos h).le
  · rw [← h]; simp [float64Round]

theorem float64Round_mono {x y : ℚ} (hx : 0 ≤ x) (hxy : x ≤ y) :
    float64Round x ≤ float64Round y := by
  rcases hx.lt_or_eq with hx0 | hx0
  · have hy0 : 0 < y := lt_of_lt_of_le hx0 hxy
    have hlog : Int.log 2 |x| ≤ Int.log 2 |y| := by
      rw [abs_of_pos hx0, abs_of_pos hy0]
      exact Int.log_mono_right hx0 hxy
    rcases hlog.lt_or_eq with hlt | heq
    · calc float64Round x ≤ (2 : ℚ) ^ (Int.log 2 |x| + 1) := (float64Round_pos_bounds hx0).2
        _ ≤ (2 : ℚ) ^ Int.log 2 |y| := zpow_le_zpow_right₀ (by norm_num) (by omega)
        _ ≤ float64Round y := (float64Round_pos_bounds hy0).1
    · unfold float64Round
      rw [if_neg hx0.ne', if_neg hy0.ne', heq]
      have hpos : (0 : ℚ) < 2 ^ (Int.log 2 |y| - 52) := zpow_pos (by norm_num) _
      apply mul_le_mul_of_nonneg_right _ hpos.le
      have := roundHalfEven_mono (div_le_div_of_nonneg_right hxy hpos.le)
      exact_mod_cast this
  · rw [← hx0]
    have : float64Round 0 = 0 := by simp [float64Round]
    rw [this]
    exact float64Round_nonneg (hx0 ▸ hxy)

/-- A value whose significand fits is rounded to itself. -/
theorem float64Round_exact {q : ℚ} (n : ℤ) (h : q / 2 ^ (Int.log 2 |q| - 52) = n) :
    float64Round q = q := by
  unfold float64Round
  split
  · next h0 => exact h0.symm
  · rw [h, roundHalfEven_intCast, ← h]
    have hpos : (0 : ℚ) < 2 ^ (Int.log 2 |q| - 52) := zpow_pos (by norm_num) _
    field_simp

theorem float64Round_one : float64Round 1 = 1 := by
  apply float64Round_exact (2 ^ 52)
  rw [abs_one, Int.log_one_right]
  norm_num

theorem float64Round_hundred : float64Round 100 = 100 := by
  have hlog : Int.log 2 |(100 : ℚ)| = 6 := by
    rw [abs_of_pos (by norm_num)]
    have : ((100 : ℕ) : ℚ) = 100 := by norm_num
    rw [← this, Int.log_natCast]
    have : Nat.log 2 100 = 6 := Nat.log_eq_of_pow_le_of_lt_pow (by norm_num) (by norm_num)
    rw [this]; rfl
  apply float64Round_exact (100 * 2 ^ 46)
  rw [hlog]
  norm_num

theorem progressPercent_mono {p p' totalTracks : Nat} (h : p ≤ p') (ht : 0 < totalTracks) :
    progressPercent p totalTracks ≤ progressPercent p' totalTracks := by
  unfold progressPercent
  have hN : 0 < float64Round (totalTracks : ℚ) := float64Round_pos (by exact_mod_cast ht)
  have h1 : float64Round (p : ℚ) ≤ float64Round (p' : ℚ) :=
    float64Round_mono (by positivity) (by exact_mod_cast h)
  have h0 : 0 ≤ float64Round (p : ℚ) := float64Round_nonneg (by positivity)
  have h2 : float64Round (p : ℚ) / float64Round (totalTracks : ℚ) ≤
      float64Round (p' : ℚ) / float64Round (totalTracks : ℚ) :=
    div_le_div_of_nonneg_right h1 hN.le
  have h3 := float64Round_mono (div_nonneg h0 hN.le) h2
  have h4 : 0 ≤ float64Round (float64Round (p : ℚ) / float64Round (totalTracks : ℚ)) :=
    float64Round_nonneg (div_nonneg h0 hN.le)
  apply float64Round_mono (mul_nonneg h4 (by norm_num))
  exact mul_le_mul_of_nonneg_right h3 (by norm_num)

theorem progressPercent_self {totalTracks : Nat} (ht : 0 < totalTracks) :
    progressPercent totalTracks totalTracks = 100 := by
  unfold progressPercent
  have hN : 0 < float64Round (totalTracks : ℚ) := float64Round_pos (by exact_mod_cast ht)
  rw [div_self hN.ne', float64Round_one, one_mul, float64Round_hundred]
/-! ## Restore: proofs -/

theorem restoreTrackIDs_of_long :
    ∀ (tracks : List TrackBackup) (trackIDs : List GoString),
      (∀ t ∈ tracks, 14 ≤ t.URI.length) →
      restoreTrackIDs tracks trackIDs = some (trackIDs ++ identifiersOf tracks) := by
  intro tracks
  induction tracks with
  | nil => intro trackIDs _; simp [restoreTrackIDs, identifiersOf]
  | cons t rest ih =>
    intro trackIDs h
    have h1 : 14 ≤ t.URI.length := h t (List.mem_cons_self _ _)
    simp only [restoreTrackIDs, h1, if_true]
    rw [ih _ (fun u hu => h u (List.mem_cons_of_mem _ hu))]
    simp [identifiersOf]

theorem restoreTrackIDs_of_short :
    ∀ (tracks : List TrackBackup) (trackIDs : List GoString),
      (∃ t ∈ tracks, t.URI.length < 14) → restoreTrackIDs tracks trackIDs = none := by
  intro tracks
  induction tracks with
  | nil => intro trackIDs h; simp at h
  | cons t rest ih =>
    intro trackIDs h
    by_cases h1 : 14 ≤ t.URI.length
    · simp only [restoreTrackIDs, h1, if_true]
      apply ih
      obtain ⟨u, hu, hlt⟩ := h
      rcases List.mem_cons.1 hu with rfl | hu
      · omega
      · exact ⟨u, hu, hlt⟩
    · simp [restoreTrackIDs, h1]

theorem slice_eq_drop_take (trackIDs : List GoString) (i : Nat) (h : i < trackIDs.length) :
    (trackIDs.take (if i + batchSize > trackIDs.length then trackIDs.length
      else i + batchSize)).drop i = (trackIDs.drop i).take 100 := by
  rw [List.drop_take]
  unfold batchSize
  split
  · rw [List.take_of_length_le (by simp), List.take_of_length_le (by simp; omega)]
  · rw [show i + 100 - i = 100 by omega]

/-- The batch loop entered at index `i`: the calls it makes do not depend on
the answers to them, and it logs one progress value per batch. -/
theorem restoreBatchLoop_spec (client : Remote) (playlistName newPlaylistID : GoString)
    (trackIDs : List GoString) (totalTracks : Nat) :
    ∀ (fuel i processedTracks : Nat) (calls : List Call) (logs : List LogEntry),
      trackIDs.length - i ≤ fuel → processedTracks = min i trackIDs.length →
      ∃ logs', restoreBatchLoop client playlistName newPlaylistID trackIDs totalTracks fuel i
          processedTracks calls logs =
        some (calls ++ ((List.range ((trackIDs.length - i + 99) / 100)).map
          (fun (k : Nat) => (trackIDs.drop (i + 100 * k)).take 100)).map
            (Call.addTracksToPlaylist newPlaylistID), logs') ∧
        logs'.filterMap LogEntry.progressValue =
          logs.filterMap LogEntry.progressValue ++
            (List.range ((trackIDs.length - i + 99) / 100)).map
              (fun (k : Nat) =>
                progressPercent (min (i + 100 * (k + 1)) trackIDs.length) totalTracks) := by
  intro fuel
  induction fuel with
  | zero =>
    intro i processedTracks calls logs hfuel _
    have hi : ¬ i < trackIDs.length := by omega
    have h0 : (trackIDs.length - i + 99) / 100 = 0 := by omega
    refine ⟨logs, ?_, ?_⟩
    · simp [restoreBatchLoop, hi, h0]
    · simp [h0]
  | succ fuel ih =>
    intro i processedTracks calls logs hfuel hproc
    by_cases hi : i < trackIDs.length
    · have hcount : (trackIDs.length - i + 99) / 100 =
          (trackIDs.length - (i + 100) + 99) / 100 + 1 := by omega
      have hbatch := slice_eq_drop_take trackIDs i hi
      have hlen : ((trackIDs.drop i).take 100).length = min (i + 100) trackIDs.length - i := by
        simp only [List.length_take, List.length_drop]
        omega
      have hproc' : processedTracks + ((trackIDs.drop i).take 100).length =
          min (i + 100) trackIDs.length := by
        rw [hlen, hproc]
        omega
      have hmap1 : (List.range ((trackIDs.length - i + 99) / 100)).map
          (fun (k : Nat) => (trackIDs.drop (i + 100 * k)).take 100) =
          (trackIDs.drop i).take 100 ::
            (List.range ((trackIDs.length - (i + 100) + 99) / 100)).map
              (fun (k : Nat) => (trackIDs.drop (i + 100 + 100 * k)).take 100) := by
        rw [hcount, List.range_succ_eq_map, List.map_cons, List.map_map]
        refine congrArg₂ _ (by simp) (List.map_congr_left ?_)
        intro k _
        simp only [Function.comp, Nat.succ_eq_add_one]
        rw [show i + 100 * (k + 1) = i + 100 + 100 * k by ring]
      have hmap2 : (List.range ((trackIDs.length - i + 99) / 100)).map
          (fun (k : Nat) =>
            progressPercent (min (i + 100 * (k + 1)) trackIDs.length) totalTracks) =
          progressPercent (min (i + 100) trackIDs.length) totalTracks ::
            (List.range ((trackIDs.length - (i + 100) + 99) / 100)).map
              (fun (k : Nat) =>
                progressPercent (min (i + 100 + 100 * (k + 1)) trackIDs.length)
                  totalTracks) := by
        rw [hcount, List.range_succ_eq_map, List.map_cons, List.map_map]
        refine congrArg₂ _ (by simp) (List.map_congr_left ?_)
        intro k _
        simp only [Function.comp, Nat.succ_eq_add_one]
        rw [show i + 100 * (k + 1 + 1) = i + 100 + 100 * (k + 1) by ring]
      simp only [restoreBatchLoop, hi, if_true, hbatch, hproc']
      cases client.AddTracksToPlaylist calls newPlaylistID ((trackIDs.drop i).take 100) with
      | error err =>
        obtain ⟨logs', h1, h2⟩ := ih (i + batchSize) (min (i + 100) trackIDs.length)
          (calls ++ [Call.addTracksToPlaylist newPlaylistID ((trackIDs.drop i).take 100)])
          (logs ++ [LogEntry.progress playlistName
              (progressPercent (min (i + 100) trackIDs.length) totalTracks) (i + 1)
              (if i + batchSize > trackIDs.length then trackIDs.length else i + batchSize)
              totalTracks] ++ [LogEntry.batchError playlistName err])
          (by unfold batchSize; omega) (by unfold batchSize; rfl)
        refine ⟨logs', ?_, ?_⟩
        · simp only [h1, hmap1]
          unfold batchSize
          simp
        · rw [h2, hmap2]
          unfold batchSize
          simp [LogEntry.progressValue]
      | ok snapshot =>
        obtain ⟨logs', h1, h2⟩ := ih (i + batchSize) (min (i + 100) trackIDs.length)
          (calls ++ [Call.addTracksToPlaylist newPlaylistID ((trackIDs.drop i).take 100)])
          (logs ++ [LogEntry.progress playlistName
              (progressPercent (min (i + 100) trackIDs.length) totalTracks) (i + 1)
              (if i + batchSize > trackIDs.length then trackIDs.length else i + batchSize)
              totalTracks])
          (by unfold batchSize; omega) (by unfold batchSize; rfl)
        refine ⟨logs', ?_, ?_⟩
        · simp only [h1, hmap1]
          unfold batchSize
          simp
        · rw [h2, hmap2]
          unfold batchSize
          simp [LogEntry.progressValue]
    · have h0 : (trackIDs.length - i + 99) / 100 = 0 := by omega
      refine ⟨logs, ?_, ?_⟩
      · simp [restoreBatchLoop, hi, h0]
      · simp [h0]

/-- The batch loop never uses up its `len(trackIDs)` iterations. -/
theorem restoreBatchLoop_isSome (client : Remote) (playlistName newPlaylistID : GoString)
    (trackIDs : List GoString) (totalTracks : Nat) (calls : List Call) (logs : List LogEntry) :
    (restoreBatchLoop client playlistName newPlaylistID trackIDs totalTracks trackIDs.length
      0 0 calls logs).isSome = true := by
  obtain ⟨logs', h, _⟩ := restoreBatchLoop_spec client playlistName newPlaylistID trackIDs
    totalTracks trackIDs.length 0 0 calls logs (by omega) (by simp)
  rw [h]
  rfl

theorem batchesOf_length (trackIDs : List GoString) :
    (batchesOf trackIDs).length = (trackIDs.length + 99) / 100 := by
  simp [batchesOf]

theorem batchesOf_getElem (trackIDs : List GoString) (k : Nat)
    (hk : k < (batchesOf trackIDs).length) :
    (batchesOf trackIDs)[k] = (trackIDs.drop (100 * k)).take 100 := by
  simp [batchesOf]

theorem batchesOf_length_le (trackIDs : List GoString) :
    ∀ b ∈ batchesOf trackIDs, b.length ≤ 100 := by
  intro b hb
  rcases List.mem_map.1 hb with ⟨k, _, rfl⟩
  rw [List.length_take]
  exact Nat.min_le_left _ _

theorem flatten_chunks (trackIDs : List GoString) (m : Nat) :
    ((List.range m).map (fun (k : Nat) => (trackIDs.drop (100 * k)).take 100)).flatten =
      trackIDs.take (100 * m) := by
  induction m with
  | zero => simp
  | succ m ih =>
    rw [List.range_succ, List.map_append, List.flatten_append, ih]
    simp only [List.map_cons, List.map_nil, List.flatten_cons, List.flatten_nil,
      List.append_nil]
    rw [show 100 * (m + 1) = 100 * m + 100 by ring, List.take_add]

theorem batchesOf_flatten (trackIDs : List GoString) :
    (batchesOf trackIDs).flatten = trackIDs := by
  unfold batchesOf
  rw [flatten_chunks]
  exact List.take_of_length_le (by omega)

theorem batchesOf_getLast (trackIDs : List GoString) (b : List GoString)
    (hb : (batchesOf trackIDs).getLast? = some b) :
    b.length = if trackIDs.length % 100 = 0 then 100 else trackIDs.length % 100 := by
  unfold batchesOf at hb
  rw [List.getLast?_eq_getElem?] at hb
  simp only [List.length_map, List.length_range] at hb
  have hb' := hb
  rw [List.getElem?_eq_some_iff] at hb'
  obtain ⟨hlt, hget⟩ := hb'
  simp only [List.length_map, List.length_range] at hlt
  simp only [List.getElem_map, List.getElem_range] at hget
  rw [← hget, List.length_take, List.length_drop]
  split <;> omega

/-- One pass of the playlist loop when the creation succeeds and every URI of
the deduplicated tracks has at least 14 bytes. -/
theorem restorePlaylistBody_created (client : Remote) (userID : GoString)
    (playlist : PlaylistBackup) (calls : List Call) (logs : List LogEntry)
    (newPlaylistID : GoString)
    (hcreate : client.CreatePlaylistForUser calls userID playlist.Name [] false false =
      .ok newPlaylistID)
    (huri : ∀ t ∈ removeDuplicateTracks playlist.Tracks, 14 ≤ t.URI.length) :
    (restorePlaylistBody client userID playlist calls logs).calls =
      calls ++ [Call.createPlaylistForUser userID playlist.Name [] false false] ++
        (batchesOf (identifiersOf (removeDuplicateTracks playlist.Tracks))).map
          (Call.addTracksToPlaylist newPlaylistID) ∧
    (restorePlaylistBody client userID playlist calls logs).status = Status.completed ∧
    (restorePlaylistBody client userID playlist calls logs).logs.filterMap
        LogEntry.progressValue =
      logs.filterMap LogEntry.progressValue ++
        (List.range (((removeDuplicateTracks playlist.Tracks).length + 99) / 100)).map
          (fun (k : Nat) =>
            progressPercent (min (100 * (k + 1)) (removeDuplicateTracks playlist.Tracks).length)
              (removeDuplicateTracks playlist.Tracks).length) := by
  have hids := restoreTrackIDs_of_long (removeDuplicateTracks playlist.Tracks) [] huri
  rw [List.nil_append] at hids
  have hlen : (identifiersOf (removeDuplicateTracks playlist.Tracks)).length =
      (removeDuplicateTracks playlist.Tracks).length := by simp [identifiersOf]
  obtain ⟨logs', h1, h2⟩ := restoreBatchLoop_spec client playlist.Name newPlaylistID
    (identifiersOf (removeDuplicateTracks playlist.Tracks))
    (identifiersOf (removeDuplicateTracks playlist.Tracks)).length
    (identifiersOf (removeDuplicateTracks playlist.Tracks)).length 0 0
    (calls ++ [Call.createPlaylistForUser userID playlist.Name [] false false])
    (logs ++ [LogEntry.processing playlist.Name]) (by omega) (by simp)
  simp only [Nat.sub_zero, Nat.zero_add] at h1 h2
  have hb : (List.range
      (((identifiersOf (removeDuplicateTracks playlist.Tracks)).length + 99) / 100)).map
        (fun (k : Nat) =>
          ((identifiersOf (removeDuplicateTracks playlist.Tracks)).drop (100 * k)).take 100) =
      batchesOf (identifiersOf (removeDuplicateTracks playlist.Tracks)) := rfl
  rw [hb] at h1
  unfold restorePlaylistBody
  simp only [hcreate, hids, h1, true_and]
  simp only [List.filterMap_append, h2, hlen]
  simp [LogEntry.progressValue]

/-- C2: for a playlist whose creation succeeded and whose deduplicated tracks
all have URIs of at least 14 bytes, whatever the add-tracks calls answer, the
pass of the restore loop makes, after the create call, exactly one add-tracks
call per batch, in order, for the new playlist; there are `ceil(N / 100)`
batches, batch `k` holds the identifiers at positions `100 * k` to
`100 * k + 99`, every batch has at most 100 identifiers, the last one has
`N mod 100` of them (100 when `N` is a positive multiple of 100), and the
batches concatenated are the identifier list of the deduplicated tracks. -/
theorem restore_batches (client : Remote) (userID : GoString) (playlist : PlaylistBackup)
    (calls : List Call) (logs : List LogEntry) (newPlaylistID : GoString)
    (hcreate : client.CreatePlaylistForUser calls userID playlist.Name [] false false =
      .ok newPlaylistID)
    (huri : ∀ t ∈ removeDuplicateTracks playlist.Tracks, 14 ≤ t.URI.length) :
    ∃ batches : List (List GoString),
      (restorePlaylistBody client userID playlist calls logs).calls =
        calls ++ [Call.createPlaylistForUser userID playlist.Name [] false false] ++
          batches.map (Call.addTracksToPlaylist newPlaylistID) ∧
      (restorePlaylistBody client userID playlist calls logs).status = Status.completed ∧
      batches.length = ((removeDuplicateTracks playlist.Tracks).length + 99) / 100 ∧
      (∀ (k : Nat) (hk : k < batches.length),
        batches[k] =
          ((identifiersOf (removeDuplicateTracks playlist.Tracks)).drop (100 * k)).take 100) ∧
      (∀ b ∈ batches, b.length ≤ 100) ∧
      (∀ b, batches.getLast? = some b →
        b.length = if (removeDuplicateTracks playlist.Tracks).length % 100 = 0 then 100
          else (removeDuplicateTracks playlist.Tracks).length % 100) ∧
      batches.flatten = identifiersOf (removeDuplicateTracks playlist.Tracks) := by
  have hlen : (identifiersOf (removeDuplicateTracks playlist.Tracks)).length =
      (removeDuplicateTracks playlist.Tracks).length := by simp [identifiersOf]
  obtain ⟨h1, h2, _⟩ :=
    restorePlaylistBody_created client userID playlist calls logs newPlaylistID hcreate huri
  refine ⟨batchesOf (identifiersOf (removeDuplicateTracks playlist.Tracks)), h1, h2, ?_,
    batchesOf_getElem _, batchesOf_length_le _, ?_, batchesOf_flatten _⟩
  · rw [batchesOf_length, hlen]
  · intro b hb
    rw [← hlen]
    exact batchesOf_getLast _ b hb

theorem mem_of_mem_removeDuplicateTracks {tracks : List TrackBackup} {t : TrackBackup}
    (h : t ∈ removeDuplicateTracks tracks) : t ∈ tracks := by
  rw [removeDuplicateTracks_eq_keepNew] at h
  exact (keepNew_sublist tracks []).subset h

/-- The URI of every track of the input is the URI of a track of the output. -/
theorem keepNew_uri_mem (rest : List TrackBackup) :
    ∀ (pre : List GoString) (t : TrackBackup), t ∈ rest → t.URI ∉ pre →
      ∃ u ∈ keepNew pre rest, u.URI = t.URI := by
  induction rest with
  | nil => intro pre t ht; simp at ht
  | cons a rest ih =>
    intro pre t ht hpre
    simp only [keepNew]
    by_cases hau : a.URI = t.URI
    · have ha : a.URI ∉ pre := hau ▸ hpre
      simp only [ha, if_false]
      exact ⟨a, List.mem_cons_self _ _, hau⟩
    · have htr : t ∈ rest := by
        rcases List.mem_cons.1 ht with h | h
        · exact absurd (h ▸ rfl) hau
        · exact h
      have hpre' : t.URI ∉ pre ++ [a.URI] := by
        simp only [List.mem_append, List.mem_singleton, not_or]
        exact ⟨hpre, fun h => hau h.symm⟩
      obtain ⟨u, hu, hue⟩ := ih (pre ++ [a.URI]) t htr hpre'
      split
      · exact ⟨u, hu, hue⟩
      · exact ⟨u, List.mem_cons_of_mem _ hu, hue⟩

theorem restorePlaylistBody_create_failed (client : Remote) (userID : GoString)
    (playlist : PlaylistBackup) (calls : List Call) (logs : List LogEntry) (err : GoError)
    (hcreate : client.CreatePlaylistForUser calls userID playlist.Name [] false false =
      .error err) :
    restorePlaylistBody client userID playlist calls logs =
      ⟨calls ++ [Call.createPlaylistForUser userID playlist.Name [] false false],
        logs ++ [LogEntry.processing playlist.Name], Status.completed⟩ := by
  unfold restorePlaylistBody
  rw [hcreate]

/-- A failed creation makes no add-tracks call and hands over to the rest of
the document. -/
theorem restorePlaylistLoop_create_failed (client : Remote) (userID : GoString)
    (playlist : PlaylistBackup) (rest : List PlaylistBackup) (calls : List Call)
    (logs : List LogEntry) (err : GoError)
    (hcreate : client.CreatePlaylistForUser calls userID playlist.Name [] false false =
      .error err) :
    restorePlaylistLoop client userID (playlist :: rest) calls logs =
      restorePlaylistLoop client userID rest
        (calls ++ [Call.createPlaylistForUser userID playlist.Name [] false false])
        (logs ++ [LogEntry.processing playlist.Name]) := by
  simp only [restorePlaylistLoop,
    restorePlaylistBody_create_failed client userID playlist calls logs err hcreate]

theorem restorePlaylistLoop_step (client : Remote) (userID : GoString)
    (playlist : PlaylistBackup) (rest : List PlaylistBackup) (calls : List Call)
    (logs : List LogEntry)
    (hstatus : (restorePlaylistBody client userID playlist calls logs).status =
      Status.completed) :
    restorePlaylistLoop client userID (playlist :: rest) calls logs =
      restorePlaylistLoop client userID rest
        (restorePlaylistBody client userID playlist calls logs).calls
        (restorePlaylistBody client userID playlist calls logs).logs := by
  cases hbody : restorePlaylistBody client userID playlist calls logs with
  | mk c l s =>
    rw [hbody] at hstatus
    simp only at hstatus
    subst hstatus
    simp only [restorePlaylistLoop, hbody]

theorem restorePlaylistLoop_abort (client : Remote) (userID : GoString)
    (playlist : PlaylistBackup) (rest : List PlaylistBackup) (calls : List Call)
    (logs : List LogEntry)
    (hstatus : (restorePlaylistBody client userID playlist calls logs).status ≠
      Status.completed) :
    restorePlaylistLoop client userID (playlist :: rest) calls logs =
      ⟨(restorePlaylistBody client userID playlist calls logs).calls,
        (restorePlaylistBody client userID playlist calls logs).logs,
        (restorePlaylistBody client userID playlist calls logs).status, none⟩ := by
  cases hbody : restorePlaylistBody client userID playlist calls logs with
  | mk c l s =>
    rw [hbody] at hstatus
    simp only at hstatus
    cases s with
    | completed => exact absurd rfl hstatus
    | panicked => simp only [restorePlaylistLoop, hbody]
    | outOfFuel => simp only [restorePlaylistLoop, hbody]

/-- When every URI of the document has at least 14 bytes the restore runs to
its end, answers with the redirect, and makes exactly the expected calls. -/
theorem restorePlaylistLoop_long_uris (client : Remote) (userID : GoString) :
    ∀ (playlists : List PlaylistBackup) (calls : List Call) (logs : List LogEntry),
      (∀ p ∈ playlists, ∀ t ∈ p.Tracks, 14 ≤ t.URI.length) →
      (restorePlaylistLoop client userID playlists calls logs).status = Status.completed ∧
      (restorePlaylistLoop client userID playlists calls logs).response =
        some (Response.redirect "/" 303) ∧
      (restorePlaylistLoop client userID playlists calls logs).calls =
        expectedCalls client userID playlists calls := by
  intro playlists
  induction playlists with
  | nil => intro calls logs _; simp [restorePlaylistLoop, expectedCalls]
  | cons playlist rest ih =>
    intro calls logs huri
    have hrest : ∀ p ∈ rest, ∀ t ∈ p.Tracks, 14 ≤ t.URI.length :=
      fun p hp => huri p (List.mem_cons_of_mem _ hp)
    cases hcreate : client.CreatePlaylistForUser calls userID playlist.Name [] false false with
    | error err =>
      rw [restorePlaylistLoop_create_failed client userID playlist rest calls logs err hcreate]
      simp only [expectedCalls, hcreate]
      exact ih _ _ hrest
    | ok newPlaylistID =>
      obtain ⟨h1, h2, _⟩ := restorePlaylistBody_created client userID playlist calls logs
        newPlaylistID hcreate
        (fun t ht => huri playlist (List.mem_cons_self _ _) t
          (mem_of_mem_removeDuplicateTracks ht))
      rw [restorePlaylistLoop_step client userID playlist rest calls logs h2, h1]
      simp only [expectedCalls, hcreate]
      exact ih _ _ hrest

theorem restorePlaylistBody_panicked (client : Remote) (userID : GoString)
    (playlist : PlaylistBackup) (calls : List Call) (logs : List LogEntry)
    (newPlaylistID : GoString)
    (hcreate : client.CreatePlaylistForUser calls userID playlist.Name [] false false =
      .ok newPlaylistID)
    (hshort : ∃ t ∈ removeDuplicateTracks playlist.Tracks, t.URI.length < 14) :
    restorePlaylistBody client userID playlist calls logs =
      ⟨calls ++ [Call.createPlaylistForUser userID playlist.Name [] false false],
        logs ++ [LogEntry.processing playlist.Name], Status.panicked⟩ := by
  unfold restorePlaylistBody
  rw [hcreate]
  simp only [restoreTrackIDs_of_short _ [] hshort]

/-- The progress values of a pass whose creation succeeded, for `N > 0`
deduplicated tracks and whatever the add-tracks calls answer: they form a
non-decreasing sequence, the `k`-th of them (counting from 1) is the
`float64` value of `min(100 * k, N) / N * 100`, and the last one is exactly
100.  When the pass runs to its end (all batches attempted) there is one value
per batch, `ceil(N / 100)` in all; the pass runs to its end when every URI has
at least 14 bytes, and otherwise panics before the batch loop and logs no
progress value. -/
theorem restore_progress (client : Remote) (userID : GoString) (playlist : PlaylistBackup)
    (calls : List Call) (logs : List LogEntry) (newPlaylistID : GoString)
    (hcreate : client.CreatePlaylistForUser calls userID playlist.Name [] false false =
      .ok newPlaylistID)
    (hN : 0 < (removeDuplicateTracks playlist.Tracks).length) :
    ∃ ps : List ℚ,
      (restorePlaylistBody client userID playlist calls logs).logs.filterMap
          LogEntry.progressValue = logs.filterMap LogEntry.progressValue ++ ps ∧
      ps.Pairwise (fun a b => a ≤ b) ∧
      (∀ (k : Nat) (hk : k < ps.length),
        ps[k] = progressPercent
          (min (100 * (k + 1)) (removeDuplicateTracks playlist.Tracks).length)
          (removeDuplicateTracks playlist.Tracks).length) ∧
      (∀ v, ps.getLast? = some v → v = 100) ∧
      ((restorePlaylistBody client userID playlist calls logs).status = Status.completed →
        ps.length = ((removeDuplicateTracks playlist.Tracks).length + 99) / 100 ∧
        ps.getLast? = some 100) ∧
      ((∀ t ∈ removeDuplicateTracks playlist.Tracks, 14 ≤ t.URI.length) →
        (restorePlaylistBody client userID playlist calls logs).status =
          Status.completed) := by
  by_cases huri : ∀ t ∈ removeDuplicateTracks playlist.Tracks, 14 ≤ t.URI.length
  · obtain ⟨_, hdone, h3⟩ :=
      restorePlaylistBody_created client userID playlist calls logs newPlaylistID hcreate huri
    have hlast : ((List.range (((removeDuplicateTracks playlist.Tracks).length + 99) / 100)).map
        (fun (k : Nat) => progressPercent
          (min (100 * (k + 1)) (removeDuplicateTracks playlist.Tracks).length)
          (removeDuplicateTracks playlist.Tracks).length)).getLast? = some 100 := by
      rw [List.getLast?_eq_getElem?, List.length_map, List.length_range,
        List.getElem?_eq_getElem (by simp; omega)]
      simp only [List.getElem_map, List.getElem_range]
      rw [Nat.min_eq_right (by omega), progressPercent_self hN]
    refine ⟨_, h3, ?_, ?_, ?_, ?_, fun _ => hdone⟩
    · rw [List.pairwise_map]
      refine (List.pairwise_lt_range _).imp ?_
      intro a b hab
      exact progressPercent_mono (by omega) hN
    · intro k hk
      simp
    · intro v hv
      rw [hlast] at hv
      exact (Option.some.inj hv).symm
    · intro _
      exact ⟨by simp, hlast⟩
  · have hshort : ∃ t ∈ removeDuplicateTracks playlist.Tracks, t.URI.length < 14 := by
      push_neg at huri
      exact huri
    have hbody :=
      restorePlaylistBody_panicked client userID playlist calls logs newPlaylistID hcreate hshort
    refine ⟨[], ?_, List.Pairwise.nil, ?_, ?_, ?_, ?_⟩
    · rw [hbody]
      simp [LogEntry.progressValue]
    · intro k hk
      simp at hk
    · intro v hv
      simp at hv
    · intro h
      rw [hbody] at h
      exact Status.noConfusion h
    · intro h
      exact absurd h huri

/-- C8: the playlist `Two` has `N = 2` deduplicated tracks, the second with a
URI of one byte, and its creation succeeds.  The pass panics at the slice
expression `track.URI[14:]` before the batch loop: it makes no add-tracks call
and logs no progress value, so there is no final value 100. -/
theorem restore_progress_missing_on_short_uri :
    (remoteWith goodItem goodItem).CreatePlaylistForUser [] (ascii "user")
      shortUriPlaylist.Name [] false false = .ok (ascii "new-Two") ∧
    (removeDuplicateTracks shortUriPlaylist.Tracks).length = 2 ∧
    (restorePlaylistBody (remoteWith goodItem goodItem) (ascii "user") shortUriPlaylist []
      []).status = Status.panicked ∧
    (restorePlaylistBody (remoteWith goodItem goodItem) (ascii "user") shortUriPlaylist []
      []).calls =
      [Call.createPlaylistForUser (ascii "user") (ascii "Two") [] false false] ∧
    (restorePlaylistBody (remoteWith goodItem goodItem) (ascii "user") shortUriPlaylist []
      []).logs = [LogEntry.processing (ascii "Two")] ∧
    (restorePlaylistBody (remoteWith goodItem goodItem) (ascii "user") shortUriPlaylist []
      []).logs.filterMap LogEntry.progressValue = [] :=
  ⟨rfl, by decide, by decide, by decide, by decide, by decide⟩

/-- C7: the creation of the first playlist fails, the second playlist holds a
track whose URI has one byte, and the third is well-formed.  The restore
panics in the second playlist: it writes no response (no redirect) and never
makes the create call of the third playlist. -/
theorem restore_aborts_after_create_failure :
    (restoreHandler (remoteCreateFails (ascii "One")) (ascii "user")
      [mixedPlaylist, shortUriPlaylist, plainPlaylist] []).calls =
      [Call.createPlaylistForUser (ascii "user") (ascii "One") [] false false,
        Call.createPlaylistForUser (ascii "user") (ascii "Two") [] false false] ∧
    (restoreHandler (remoteCreateFails (ascii "One")) (ascii "user")
      [mixedPlaylist, shortUriPlaylist, plainPlaylist] []).status = Status.panicked ∧
    (restoreHandler (remoteCreateFails (ascii "One")) (ascii "user")
      [mixedPlaylist, shortUriPlaylist, plainPlaylist] []).response = none := by
  decide

/-- C9, as stated, fails.  A track whose URI has 14 bytes or more and no
`spotify:track:` in front is not skipped: the bytes after its first 14 are
submitted as its identifier.  A track whose URI has fewer than 14 bytes makes
the restore panic: the well-formed track of the same playlist is not
submitted, the later playlist is not created, and no response is written. -/
theorem restore_malformed_uri :
    (restoreHandler (remoteWith goodItem goodItem) (ascii "user") [mixedPlaylist] []).calls =
      [Call.createPlaylistForUser (ascii "user") (ascii "One") [] false false,
        Call.addTracksToPlaylist (ascii "new-One") [ascii "abc", ascii ".org/xyz"]] ∧
    (restoreHandler (remoteWith goodItem goodItem) (ascii "user")
      [shortUriPlaylist, plainPlaylist] []).calls =
      [Call.createPlaylistForUser (ascii "user") (ascii "Two") [] false false] ∧
    (restoreHandler (remoteWith goodItem goodItem) (ascii "user")
      [shortUriPlaylist, plainPlaylist] []).status = Status.panicked ∧
    (restoreHandler (remoteWith goodItem goodItem) (ascii "user")
      [shortUriPlaylist, plainPlaylist] []).response = none := by
  decide

/-- The expected calls hold one create call per playlist, in document
order. -/
theorem expectedCalls_createdName (client : Remote) (userID : GoString) :
    ∀ (playlists : List PlaylistBackup) (calls : List Call),
      (expectedCalls client userID playlists calls).filterMap Call.createdName =
        calls.filterMap Call.createdName ++ playlists.map PlaylistBackup.Name := by
  intro playlists
  induction playlists with
  | nil => intro calls; simp [expectedCalls]
  | cons playlist rest ih =>
    intro calls
    have hadd : ∀ (newPlaylistID : GoString) (batches : List (List GoString)),
        (batches.map (Call.addTracksToPlaylist newPlaylistID)).filterMap Call.createdName =
          [] := by
      intro newPlaylistID batches
      induction batches with
      | nil => rfl
      | cons b bs ihb => simp [List.filterMap_cons, Call.createdName]
    simp only [expectedCalls]
    cases client.CreatePlaylistForUser calls userID playlist.Name [] false false with
    | error err =>
      simp only
      rw [ih]
      simp [List.filterMap_append, Call.createdName]
    | ok newPlaylistID =>
      simp only
      rw [ih]
      simp [List.filterMap_append, Call.createdName, hadd]

/-- C9, amended: when every URI of the document has at least 14 bytes, no
track is skipped and the restore does not abort, whether or not a URI starts
with `spotify:track:`: the restore runs to its end and answers with the
redirect; it makes one create call per playlist in document order, followed,
when the creation succeeds, by the add-tracks calls for the batches of the
identifiers of the deduplicated tracks; and the identifier of every track of
every playlist, its URI without the first 14 bytes, is in one of the batches
of its playlist.  (A URI of fewer than 14 bytes is outside this statement.) -/
theorem restore_submits_every_long_uri (client : Remote) (userID : GoString)
    (playlists : List PlaylistBackup) (calls : List Call)
    (huri : ∀ p ∈ playlists, ∀ t ∈ p.Tracks, 14 ≤ t.URI.length) :
    (restoreHandler client userID playlists calls).status = Status.completed ∧
    (restoreHandler client userID playlists calls).response =
      some (Response.redirect "/" 303) ∧
    (restoreHandler client userID playlists calls).calls =
      expectedCalls client userID playlists calls ∧
    (restoreHandler client userID playlists calls).calls.filterMap Call.createdName =
      calls.filterMap Call.createdName ++ playlists.map PlaylistBackup.Name ∧
    (∀ p ∈ playlists, ∀ t ∈ p.Tracks,
      ∃ batch ∈ batchesOf (identifiersOf (removeDuplicateTracks p.Tracks)),
        t.URI.drop 14 ∈ batch) := by
  obtain ⟨h1, h2, h3⟩ := restorePlaylistLoop_long_uris client userID playlists calls [] huri
  have h4 : (restoreHandler client userID playlists calls).calls.filterMap Call.createdName =
      calls.filterMap Call.createdName ++ playlists.map PlaylistBackup.Name := by
    unfold restoreHandler
    rw [h3]
    exact expectedCalls_createdName client userID playlists calls
  refine ⟨h1, h2, h3, h4, ?_⟩
  intro p _ t ht
  obtain ⟨u, hu, hue⟩ := keepNew_uri_mem p.Tracks [] t ht (by simp)
  rw [← removeDuplicateTracks_eq_keepNew] at hu
  have hmem : t.URI.drop 14 ∈ identifiersOf (removeDuplicateTracks p.Tracks) := by
    unfold identifiersOf
    exact List.mem_map.2 ⟨u, hu, by rw [hue]⟩
  rw [← batchesOf_flatten (identifiersOf (removeDuplicateTracks p.Tracks))] at hmem
  obtain ⟨batch, hb, hin⟩ := List.mem_flatten.1 hmem
  exact ⟨batch, hb, hin⟩
/-! ## Instances at concrete inputs -/

theorem restore_batches_witness :
    (remoteWith goodItem goodItem).CreatePlaylistForUser [] (ascii "user") mixedPlaylist.Name []
      false false = .ok (ascii "new-One") ∧
    (∀ t ∈ removeDuplicateTracks mixedPlaylist.Tracks, 14 ≤ t.URI.length) ∧
    ∃ batches : List (List GoString),
      (restorePlaylistBody (remoteWith goodItem goodItem) (ascii "user") mixedPlaylist []
        []).calls =
        [] ++ [Call.createPlaylistForUser (ascii "user") mixedPlaylist.Name [] false false] ++
          batches.map (Call.addTracksToPlaylist (ascii "new-One")) ∧
      (restorePlaylistBody (remoteWith goodItem goodItem) (ascii "user") mixedPlaylist []
        []).status = Status.completed ∧
      batches.length = ((removeDuplicateTracks mixedPlaylist.Tracks).length + 99) / 100 ∧
      (∀ (k : Nat) (hk : k < batches.length),
        batches[k] =
          ((identifiersOf (removeDuplicateTracks mixedPlaylist.Tracks)).drop (100 * k)).take
            100) ∧
      (∀ b ∈ batches, b.length ≤ 100) ∧
      (∀ b, batches.getLast? = some b →
        b.length = if (removeDuplicateTracks mixedPlaylist.Tracks).length % 100 = 0 then 100
          else (removeDuplicateTracks mixedPlaylist.Tracks).length % 100) ∧
      batches.flatten = identifiersOf (removeDuplicateTracks mixedPlaylist.Tracks) :=
  ⟨rfl, by decide,
    restore_batches (remoteWith goodItem goodItem) (ascii "user") mixedPlaylist [] []
      (ascii "new-One") rfl (by decide)⟩

theorem getPlaylistTracks_pagination_witness :
    (∀ k, k ≤ 1 → pageAt pagedRemote (ascii "p1") [] k = .ok (pagedPages k)) ∧
    (pagedPages 1).length < 100 ∧
    ∃ n, n ≤ 1 ∧ (∀ k, k < n → 100 ≤ (pagedPages k).length) ∧ (pagedPages n).length < 100 ∧
      (∀ fuel, n < fuel →
        getPlaylistTracks pagedRemote fuel (ascii "p1") [] =
          some ⟨((List.range (n + 1)).map pagedPages).flatten, none,
            [] ++ (List.range (n + 1)).map
              (fun (k : Nat) => Call.getPlaylistItems (ascii "p1") 100 (100 * (k : Int)))⟩) ∧
      ((List.range (n + 1)).map (fun (k : Nat) => 100 * (k : Int))).Pairwise
        (fun a b => a < b) ∧
      (∀ o ∈ (List.range (n + 1)).map (fun (k : Nat) => 100 * (k : Int)), 0 ≤ o) :=
  have hok : ∀ k, k ≤ 1 → pageAt pagedRemote (ascii "p1") [] k = .ok (pagedPages k) := by
    intro k hk
    interval_cases k <;> rfl
  ⟨hok, by decide,
    getPlaylistTracks_pagination pagedRemote (ascii "p1") [] pagedPages 1 hok (by decide)⟩

theorem restore_submits_every_long_uri_witness :
    (∀ p ∈ [mixedPlaylist, plainPlaylist], ∀ t ∈ p.Tracks, 14 ≤ t.URI.length) ∧
    (restoreHandler (remoteWith goodItem goodItem) (ascii "user")
      [mixedPlaylist, plainPlaylist] []).status = Status.completed ∧
    (restoreHandler (remoteWith goodItem goodItem) (ascii "user")
      [mixedPlaylist, plainPlaylist] []).response = some (Response.redirect "/" 303) ∧
    (restoreHandler (remoteWith goodItem goodItem) (ascii "user")
      [mixedPlaylist, plainPlaylist] []).calls =
      expectedCalls (remoteWith goodItem goodItem) (ascii "user")
        [mixedPlaylist, plainPlaylist] [] ∧
    (restoreHandler (remoteWith goodItem goodItem) (ascii "user")
      [mixedPlaylist, plainPlaylist] []).calls.filterMap Call.createdName =
      ([] : List Call).filterMap Call.createdName ++
        [mixedPlaylist, plainPlaylist].map PlaylistBackup.Name ∧
    (∀ p ∈ [mixedPlaylist, plainPlaylist], ∀ t ∈ p.Tracks,
      ∃ batch ∈ batchesOf (identifiersOf (removeDuplicateTracks p.Tracks)),
        t.URI.drop 14 ∈ batch) :=
  ⟨by decide,
    restore_submits_every_long_uri (remoteWith goodItem goodItem) (ascii "user")
      [mixedPlaylist, plainPlaylist] [] (by decide)⟩

end SpotifyTransfer
